import Mathlib

/-!
# SNIPER: symbolic expression graph and fault localization

A shallow embedding of the `Symbol` class hierarchy of
`src/ExecutionEngine/Symbol.h` and of its `convertToExpr` methods, followed by
a model of the diagnosis engine and trace combiner that
`src/Backends/SniperBackend/FaultLocalization.h` declares.

* An LLVM `Value*` that may be null is an `Option Value`.
* A node of the hierarchy is a term of `Symbol`; the class of the node is the
  constructor, the fields are its arguments.  A `SymbolPtr` field is the
  operand node itself (operand pointers are taken to refer to constructed
  nodes); a `Value*` operand field is a `Value`.
* `assert` is taken as active: a failed assertion stops the run.
* An `ExprPtr` is an expression object: the number of the allocation that
  created it together with the term it holds.
-/

namespace Sniper

/-! ## LLVM values, as far as `Symbol.h` looks at them -/

/-- LLVM types, told apart the way `Type::isIntegerTy(n)` does. -/
inductive Ty where
  | integer (bits : Nat)
  | floating
  | pointer
  | void
  deriving DecidableEq, Repr

/-- The query `Type::isIntegerTy(n)`: an integer type of exactly `n` bits. -/
def Ty.isIntegerTy (t : Ty) (n : Nat) : Bool :=
  match t with
  | .integer b => b == n
  | _ => false

/-- Instruction opcodes. -/
inductive Opcode where
  | add | sub | mul | sdiv | srem | icmp
  | select
  | zext | sext | trunc | bitcast
  | getelementptr | load | store | alloca | call | ret
  deriving DecidableEq, Repr

/-- An LLVM value: a function argument, an integer constant, or an
instruction with its operands. -/
inductive Value where
  | argument (ty : Ty) (name : Nat)
  | constantInt (ty : Ty) (n : Int)
  | instruction (opcode : Opcode) (ty : Ty) (operands : List Value)

namespace Value

/-- The type of a value, `Value::getType()`. -/
def getType : Value → Ty
  | argument ty _ => ty
  | constantInt ty _ => ty
  | instruction _ ty _ => ty

/-- The cast `dyn_cast<Instruction>(v)`: the value itself when it is an
instruction, null otherwise. -/
def dynCastInstruction : Value → Option Value
  | instruction op ty ops => some (instruction op ty ops)
  | _ => none

/-- The test `isa<SelectInst>(v)`. -/
def isaSelectInst : Value → Bool
  | instruction .select _ _ => true
  | _ => false

/-- The access `I->getOperand(i)`; `none` when the instruction has no such
operand. -/
def getOperand : Value → Nat → Option Value
  | instruction _ _ ops, i => ops[i]?
  | _, _ => none

end Value

/-! ## Outcomes of running a method -/

/-- The ways `Symbol.h` stops a run. -/
inductive Failure where
  /-- Raised by `assert(v && "No value for symbol!")` in the `Symbol` constructor. -/
  | noValue
  /-- Raised by `"error: symbol wihout instruction."` followed by `exit(1)`. -/
  | exitNoInstruction
  /-- Raised by `assert(I && "Symbol has no instruction!")`. -/
  | noInstruction
  /-- Raised by `assert(isa<SelectInst>(v) && "Value is not a select instruction!")`. -/
  | notSelect
  /-- The message of `assert("Unsupported cast operation!")`. -/
  | unsupportedCast
  deriving DecidableEq, Repr

/-- The result of running a method: it returns a value, the run is stopped by
a failed assertion or `exit(1)`, or the behaviour is undefined (control
leaves a value-returning function without a `return`, an operand index is
out of range, a pointer refers to no object). -/
inductive Outcome (α : Type) where
  | ok (a : α)
  | abort (f : Failure)
  | undefined
  deriving Repr

namespace Outcome

/-- Sequencing: a stopped or undefined run stays so. -/
def bind {α β : Type} (x : Outcome α) (k : α → Outcome β) : Outcome β :=
  match x with
  | ok a => k a
  | abort f => abort f
  | undefined => undefined

/-- The run returned normally. -/
def isOk {α : Type} : Outcome α → Bool
  | ok _ => true
  | _ => false

/-- The run was stopped with an error. -/
def isAbort {α : Type} : Outcome α → Bool
  | abort _ => true
  | _ => false

end Outcome

/-- The statement `assert(c)`, continuing with `k` when `c` holds. -/
def assert {α : Type} (c : Bool) (f : Failure) (k : Outcome α) : Outcome α :=
  if c then k else .abort f

/-! ## Expressions -/

/-- Expression terms of the logic, one constructor for each builder of
`Expression` that `Symbol.h` calls. -/
inductive Expr where
  /-- The expression of a concrete value, from `getExprFromValue`. -/
  | ofValue (v : Value)
  /-- The expression of a node converted by `Symbol::convertToExpr`. -/
  | ofSymbol (v : Value)
  /-- A signed 32-bit literal, from `mkSInt32Num`. -/
  | sint32 (n : Int)
  /-- The operation of instruction `I` on two operands, from `mkOp`. -/
  | op (e1 e2 : Expr) (I : Value)
  /-- A conditional expression, from `mkIte`. -/
  | ite (e1 e2 e3 : Expr)
  /-- A disequality, from `mkDiseq`. -/
  | diseq (e1 e2 : Expr)
  /-- A function application, from `mkApp`. -/
  | app (e1 e2 : Expr)

/-- An expression object behind an `ExprPtr`: `addr` is the number of the
allocation that created the object, `term` the expression it holds. -/
structure ExprPtr where
  addr : Nat
  term : Expr

/-- The number of expression objects created so far. -/
abbrev Alloc := Nat

/-- Modelled from the spec: the builders of `Logic/Expression.h`, which is not
among the sources.  A builder creates a new expression object holding the
term built from its arguments. -/
def Expression.build (t : Expr) (σ : Alloc) : ExprPtr × Alloc :=
  (⟨σ, t⟩, σ + 1)

/-- Modelled from the spec: `Expression::getExprFromValue`, absent from the
sources; the expression standing for a concrete value. -/
def Expression.getExprFromValue (v : Value) (σ : Alloc) : ExprPtr × Alloc :=
  Expression.build (.ofValue v) σ

/-- Modelled from the spec: `Expression::mkSInt32Num`, absent from the
sources; a signed 32-bit numeric literal. -/
def Expression.mkSInt32Num (n : Int) (σ : Alloc) : ExprPtr × Alloc :=
  Expression.build (.sint32 n) σ

/-- Modelled from the spec: `Expression::mkOp`, absent from the sources; the
operation of instruction `I` applied to `e1` and `e2`. -/
def Expression.mkOp (e1 e2 : ExprPtr) (I : Value) (σ : Alloc) : ExprPtr × Alloc :=
  Expression.build (.op e1.term e2.term I) σ

/-- Modelled from the spec: `Expression::mkIte`, absent from the sources; the
conditional expression. -/
def Expression.mkIte (e1 e2 e3 : ExprPtr) (σ : Alloc) : ExprPtr × Alloc :=
  Expression.build (.ite e1.term e2.term e3.term) σ

/-- Modelled from the spec: `Expression::mkDiseq`, absent from the sources;
the disequality of two expressions. -/
def Expression.mkDiseq (e1 e2 : ExprPtr) (σ : Alloc) : ExprPtr × Alloc :=
  Expression.build (.diseq e1.term e2.term) σ

/-- Modelled from the spec: `Expression::mkApp`, absent from the sources;
function application. -/
def Expression.mkApp (e1 e2 : ExprPtr) (σ : Alloc) : ExprPtr × Alloc :=
  Expression.build (.app e1.term e2.term) σ

/-! ## The `Symbol` hierarchy -/

/-- A constructed node.  Every node carries `currentID` and its non-null value
`v` (the `Symbol` constructor asserts `v`); the other arguments are the
fields its class adds. -/
inductive Symbol where
  /-- Constructor call `Symbol(v)`. -/
  | symbol (currentID : Nat) (v : Value)
  /-- Constructor call `InputSymbol(v)`. -/
  | input (currentID : Nat) (v : Value)
  /-- Constructor call `SSBinaryOpSymbol(v, s1, s2)`. -/
  | ssBinaryOp (currentID : Nat) (v : Value) (s1 s2 : Symbol)
  /-- Constructor call `SVBinaryOpSymbol(v, s1, v2)`. -/
  | svBinaryOp (currentID : Nat) (v : Value) (s1 : Symbol) (v2 : Value)
  /-- Constructor call `VSBinaryOpSymbol(v, v1, s2)`. -/
  | vsBinaryOp (currentID : Nat) (v : Value) (v1 : Value) (s2 : Symbol)
  /-- Constructor call `SelectOpSymbol(v, s1)`. -/
  | selectOp (currentID : Nat) (v : Value) (s1 : Symbol)
  /-- Constructor call `SSSelectOpSymbol(v, s1, s2, s3)`. -/
  | ssSelectOp (currentID : Nat) (v : Value) (s1 s2 s3 : Symbol)
  /-- Constructor call `VSSelectOpSymbol(v, s1, v2, s3)`. -/
  | vsSelectOp (currentID : Nat) (v : Value) (s1 : Symbol) (v2 : Value) (s3 : Symbol)
  /-- Constructor call `SVSelectOpSymbol(v, s1, s2, v3)`. -/
  | svSelectOp (currentID : Nat) (v : Value) (s1 s2 : Symbol) (v3 : Value)
  /-- Constructor call `VVSelectOpSymbol(v, s1, v2, v3)`. -/
  | vvSelectOp (currentID : Nat) (v : Value) (s1 : Symbol) (v2 v3 : Value)
  /-- Constructor call `CastOpSymbol(v, s1)`. -/
  | castOp (currentID : Nat) (v : Value) (s1 : Symbol)
  /-- Constructor call `GepOpSymbol(ptr, a, s1)`. -/
  | gepOp (currentID : Nat) (ptr : Value) (a : Value) (s1 : Symbol)

namespace Symbol

/-- The field `currentID`, the id of the node. -/
def currentID : Symbol → Nat
  | symbol i _ => i
  | input i _ => i
  | ssBinaryOp i _ _ _ => i
  | svBinaryOp i _ _ _ => i
  | vsBinaryOp i _ _ _ => i
  | selectOp i _ _ => i
  | ssSelectOp i _ _ _ _ => i
  | vsSelectOp i _ _ _ _ => i
  | svSelectOp i _ _ _ _ => i
  | vvSelectOp i _ _ _ _ => i
  | castOp i _ _ => i
  | gepOp i _ _ _ => i

/-- The method `getValue()`: the represented value `v`. -/
def getValue : Symbol → Value
  | symbol _ v => v
  | input _ v => v
  | ssBinaryOp _ v _ _ => v
  | svBinaryOp _ v _ _ => v
  | vsBinaryOp _ v _ _ => v
  | selectOp _ v _ => v
  | ssSelectOp _ v _ _ _ => v
  | vsSelectOp _ v _ _ _ => v
  | svSelectOp _ v _ _ _ => v
  | vvSelectOp _ v _ _ _ => v
  | castOp _ v _ => v
  | gepOp _ ptr _ _ => ptr

/-- The `SymbolPtr` fields of a node, in declaration order: the operand nodes
it refers to. -/
def operands : Symbol → List Symbol
  | symbol _ _ => []
  | input _ _ => []
  | ssBinaryOp _ _ s1 s2 => [s1, s2]
  | svBinaryOp _ _ s1 _ => [s1]
  | vsBinaryOp _ _ _ s2 => [s2]
  | selectOp _ _ s1 => [s1]
  | ssSelectOp _ _ s1 s2 s3 => [s1, s2, s3]
  | vsSelectOp _ _ s1 _ s3 => [s1, s3]
  | svSelectOp _ _ s1 s2 _ => [s1, s2]
  | vvSelectOp _ _ s1 _ _ => [s1]
  | castOp _ _ s1 => [s1]
  | gepOp _ _ _ s1 => [s1]

/-- Modelled from the spec: the body of `Symbol::convertToExpr`, which
`Symbol.h` only declares (`Symbol`, `InputSymbol` and `SelectOpSymbol` do not
override it); the expression standing for the node's value. -/
def convertBase (v : Value) (σ : Alloc) : ExprPtr × Alloc :=
  Expression.build (.ofSymbol v) σ

/-- The virtual method `convertToExpr`, dispatched on the class of the node.
The allocation count is threaded through the builder calls in the order the
statements run. -/
def convertToExpr : Symbol → Alloc → Outcome (ExprPtr × Alloc)
  | symbol _ v, σ => .ok (convertBase v σ)
  | input _ v, σ => .ok (convertBase v σ)
  | selectOp _ v _, σ => .ok (convertBase v σ)
  | ssBinaryOp _ v s1 s2, σ =>
    match v.dynCastInstruction with
    | some I =>
      (convertToExpr s1 σ).bind fun (e1, σ1) =>
      (convertToExpr s2 σ1).bind fun (e2, σ2) =>
      .ok (Expression.mkOp e1 e2 I σ2)
    | none => .abort .exitNoInstruction
  | svBinaryOp _ v s1 v2, σ =>
    match v.dynCastInstruction with
    | none => .abort .noInstruction
    | some I =>
      (convertToExpr s1 σ).bind fun (e1, σ1) =>
      let (e2, σ2) := Expression.getExprFromValue v2 σ1
      .ok (Expression.mkOp e1 e2 I σ2)
  | vsBinaryOp _ v v1 s2, σ =>
    match v.dynCastInstruction with
    | none => .abort .noInstruction
    | some I =>
      let (e1, σ1) := Expression.getExprFromValue v1 σ
      (convertToExpr s2 σ1).bind fun (e2, σ2) =>
      .ok (Expression.mkOp e1 e2 I σ2)
  | ssSelectOp _ v s1 s2 s3, σ =>
    assert v.isaSelectInst .notSelect <|
      (convertToExpr s1 σ).bind fun (e1, σ1) =>
      (convertToExpr s2 σ1).bind fun (e2, σ2) =>
      (convertToExpr s3 σ2).bind fun (e3, σ3) =>
      .ok (Expression.mkIte e1 e2 e3 σ3)
  | vsSelectOp _ v s1 v2 s3, σ =>
    assert v.isaSelectInst .notSelect <|
      (convertToExpr s1 σ).bind fun (e1, σ1) =>
      let (e2, σ2) := Expression.getExprFromValue v2 σ1
      (convertToExpr s3 σ2).bind fun (e3, σ3) =>
      .ok (Expression.mkIte e1 e2 e3 σ3)
  | svSelectOp _ v s1 s2 v3, σ =>
    assert v.isaSelectInst .notSelect <|
      (convertToExpr s1 σ).bind fun (e1, σ1) =>
      (convertToExpr s2 σ1).bind fun (e2, σ2) =>
      let (e3, σ3) := Expression.getExprFromValue v3 σ2
      .ok (Expression.mkIte e1 e2 e3 σ3)
  | vvSelectOp _ v s1 v2 v3, σ =>
    assert v.isaSelectInst .notSelect <|
      (convertToExpr s1 σ).bind fun (e1, σ1) =>
      let (e2, σ2) := Expression.getExprFromValue v2 σ1
      let (e3, σ3) := Expression.getExprFromValue v3 σ2
      .ok (Expression.mkIte e1 e2 e3 σ3)
  | castOp _ v s1, σ =>
    match v.dynCastInstruction with
    | none => .abort .noInstruction
    | some I =>
      match I.getOperand 0 with
      | none => .undefined
      | some v1 =>
        let vTy := v.getType
        let v1Ty := v1.getType
        -- i1 -> i32
        if v1Ty.isIntegerTy 1 && vTy.isIntegerTy 32 then
          let (one, σ1) := Expression.mkSInt32Num 1 σ
          let (zero, σ2) := Expression.mkSInt32Num 0 σ1
          (convertToExpr s1 σ2).bind fun (e1, σ3) =>
          .ok (Expression.mkIte e1 one zero σ3)
        -- i32 -> i1
        else if v1Ty.isIntegerTy 32 && vTy.isIntegerTy 1 then
          let (zero, σ1) := Expression.mkSInt32Num 0 σ
          (convertToExpr s1 σ1).bind fun (e1, σ2) =>
          .ok (Expression.mkDiseq e1 zero σ2)
        else
          -- `assert("Unsupported cast operation!")`: the asserted expression
          -- is the string literal, a non-null pointer, hence true; the
          -- function then ends without a `return`.
          assert true .unsupportedCast .undefined
  | gepOp _ _ a s1, σ =>
    let (e1, σ1) := Expression.getExprFromValue a σ
    (convertToExpr s1 σ1).bind fun (e2, σ2) =>
    .ok (Expression.mkApp e1 e2 σ2)

/-! ### Select shapes -/

end Symbol

/-- An operand of an instruction as a node holds it: a node (`SymbolPtr`) when
the operand is symbolic, a value (`Value*`) when it is concrete. -/
inductive Operand where
  | symbolic (s : Symbol)
  | concrete (v : Value)

/-- Whether the operand is held as a node. -/
def Operand.isSymbolic : Operand → Bool
  | .symbolic _ => true
  | .concrete _ => false

namespace Symbol

/-- The (condition, then, else) operands held by a node of one of the four
select classes `SSSelectOpSymbol`, `VSSelectOpSymbol`, `SVSelectOpSymbol`,
`VVSelectOpSymbol`, read off the fields of the class. -/
def selectOperands : Symbol → Option (Operand × Operand × Operand)
  | ssSelectOp _ _ s1 s2 s3 => some (.symbolic s1, .symbolic s2, .symbolic s3)
  | vsSelectOp _ _ s1 v2 s3 => some (.symbolic s1, .concrete v2, .symbolic s3)
  | svSelectOp _ _ s1 s2 v3 => some (.symbolic s1, .symbolic s2, .concrete v3)
  | vvSelectOp _ _ s1 v2 v3 => some (.symbolic s1, .concrete v2, .concrete v3)
  | _ => none

/-- The shape of a select node: which of (condition, then, else) is
symbolic. -/
def selectShape (s : Symbol) : Option (Bool × Bool × Bool) :=
  s.selectOperands.map fun (c, t, e) => (c.isSymbolic, t.isSymbolic, e.isSymbolic)

/-- Whether the class of the node defines `convertToExpr` in `Symbol.h`; the
classes `Symbol`, `InputSymbol` and `SelectOpSymbol` inherit the method of
`Symbol`, whose body is not in the header. -/
def definesConvertToExpr : Symbol → Bool
  | symbol _ _ => false
  | input _ _ => false
  | selectOp _ _ _ => false
  | _ => true

/-- Whether the node is of class `GepOpSymbol`. -/
def isGepOp : Symbol → Bool
  | gepOp _ _ _ _ => true
  | _ => false

/-- The virtual method `isInput()`: `Symbol` returns false, `InputSymbol`
overrides it to return true, no other class overrides it. -/
def isInput : Symbol → Bool
  | input _ _ => true
  | _ => false

/-- The term of the expression a conversion returns, the way the conversion
ends otherwise. -/
def termOf (s : Symbol) (σ : Alloc) : Outcome Expr :=
  (s.convertToExpr σ).bind fun r => .ok r.1.term

/-- The node converts to an expression holding the term `t`. -/
def convertsTo (s : Symbol) (t : Expr) : Prop :=
  ∃ σ e σ1, s.convertToExpr σ = .ok (e, σ1) ∧ e.term = t

/-- Two nodes convert to structurally equal expressions. -/
def sameExpr (a b : Symbol) : Prop :=
  ∃ t, a.convertsTo t ∧ b.convertsTo t

/-- Two nodes of the same class, built from the same value and the same
concrete operands, whose operand nodes convert to structurally equal
expressions; the ids are free. -/
inductive SameBuild : Symbol → Symbol → Prop where
  | symbol (i j : Nat) (v : Value) : SameBuild (.symbol i v) (.symbol j v)
  | input (i j : Nat) (v : Value) : SameBuild (.input i v) (.input j v)
  | ssBinaryOp (i j : Nat) (v : Value) (s1 s2 t1 t2 : Symbol) :
      s1.sameExpr t1 → s2.sameExpr t2 →
      SameBuild (.ssBinaryOp i v s1 s2) (.ssBinaryOp j v t1 t2)
  | svBinaryOp (i j : Nat) (v v2 : Value) (s1 t1 : Symbol) :
      s1.sameExpr t1 →
      SameBuild (.svBinaryOp i v s1 v2) (.svBinaryOp j v t1 v2)
  | vsBinaryOp (i j : Nat) (v v1 : Value) (s2 t2 : Symbol) :
      s2.sameExpr t2 →
      SameBuild (.vsBinaryOp i v v1 s2) (.vsBinaryOp j v v1 t2)
  | selectOp (i j : Nat) (v : Value) (s1 t1 : Symbol) :
      s1.sameExpr t1 →
      SameBuild (.selectOp i v s1) (.selectOp j v t1)
  | ssSelectOp (i j : Nat) (v : Value) (s1 s2 s3 t1 t2 t3 : Symbol) :
      s1.sameExpr t1 → s2.sameExpr t2 → s3.sameExpr t3 →
      SameBuild (.ssSelectOp i v s1 s2 s3) (.ssSelectOp j v t1 t2 t3)
  | vsSelectOp (i j : Nat) (v v2 : Value) (s1 s3 t1 t3 : Symbol) :
      s1.sameExpr t1 → s3.sameExpr t3 →
      SameBuild (.vsSelectOp i v s1 v2 s3) (.vsSelectOp j v t1 v2 t3)
  | svSelectOp (i j : Nat) (v v3 : Value) (s1 s2 t1 t2 : Symbol) :
      s1.sameExpr t1 → s2.sameExpr t2 →
      SameBuild (.svSelectOp i v s1 s2 v3) (.svSelectOp j v t1 t2 v3)
  | vvSelectOp (i j : Nat) (v v2 v3 : Value) (s1 t1 : Symbol) :
      s1.sameExpr t1 →
      SameBuild (.vvSelectOp i v s1 v2 v3) (.vvSelectOp j v t1 v2 v3)
  | castOp (i j : Nat) (v : Value) (s1 t1 : Symbol) :
      s1.sameExpr t1 →
      SameBuild (.castOp i v s1) (.castOp j v t1)
  | gepOp (i j : Nat) (ptr a : Value) (s1 t1 : Symbol) :
      s1.sameExpr t1 →
      SameBuild (.gepOp i ptr a s1) (.gepOp j ptr a t1)

end Symbol

/-! ## Construction of nodes and the counter `Symbol::ID` -/

/-- The static counter `Symbol::ID` is an `unsigned`: it counts modulo
`2 ^ 32`. -/
def idModulus : Nat := 2 ^ 32

/-- The program state the constructors act on: the static counter
`Symbol::ID` and the nodes constructed so far, oldest first.  A `SymbolPtr` is
the position of its node in `built`. -/
structure State where
  ID : Nat
  built : List Symbol

/-- The state before any node is constructed, `c0` being the value
`Symbol::ID` is defined with (the definition is in `Symbol.cpp`). -/
def State.init (c0 : Nat) : State := ⟨c0, []⟩

/-- The node a `SymbolPtr` refers to; a pointer to no constructed node is not
a pointer the program can hold. -/
def State.deref (σ : State) (p : Nat) : Outcome Symbol :=
  match σ.built[p]? with
  | some s => .ok s
  | none => .undefined

/-- The base constructor `Symbol(_v) : v(_v), currentID(ID++)` with its body
`assert(v && "No value for symbol!")`: yields `currentID`, the value and the
incremented counter. -/
def Symbol.base (v : Option Value) (ID : Nat) : Outcome (Nat × Value × Nat) :=
  let currentID := ID
  let ID1 := (ID + 1) % idModulus
  match v with
  | none => .abort .noValue
  | some v => .ok (currentID, v, ID1)

/-- A constructor call of the hierarchy with its arguments. -/
inductive Ctor where
  | symbol (v : Option Value)
  | input (v : Option Value)
  | ssBinaryOp (v : Option Value) (s1 s2 : Nat)
  | svBinaryOp (v : Option Value) (s1 : Nat) (v2 : Value)
  | vsBinaryOp (v : Option Value) (v1 : Value) (s2 : Nat)
  | selectOp (v : Option Value) (s1 : Nat)
  | ssSelectOp (v : Option Value) (s1 s2 s3 : Nat)
  | vsSelectOp (v : Option Value) (s1 : Nat) (v2 : Value) (s3 : Nat)
  | svSelectOp (v : Option Value) (s1 s2 : Nat) (v3 : Value)
  | vvSelectOp (v : Option Value) (s1 : Nat) (v2 v3 : Value)
  | castOp (v : Option Value) (s1 : Nat)
  | gepOp (ptr : Option Value) (a : Value) (s1 : Nat)

/-- Running one constructor call: the base constructor runs first, the fields
of the class are then set from the arguments, and the new node is the
youngest of `built`. -/
def construct (c : Ctor) (σ : State) : Outcome State :=
  match c with
  | .symbol v =>
    (Symbol.base v σ.ID).bind fun (i, v, ID1) =>
    .ok ⟨ID1, σ.built ++ [.symbol i v]⟩
  | .input v =>
    (Symbol.base v σ.ID).bind fun (i, v, ID1) =>
    .ok ⟨ID1, σ.built ++ [.input i v]⟩
  | .ssBinaryOp v p1 p2 =>
    (σ.deref p1).bind fun s1 => (σ.deref p2).bind fun s2 =>
    (Symbol.base v σ.ID).bind fun (i, v, ID1) =>
    .ok ⟨ID1, σ.built ++ [.ssBinaryOp i v s1 s2]⟩
  | .svBinaryOp v p1 v2 =>
    (σ.deref p1).bind fun s1 =>
    (Symbol.base v σ.ID).bind fun (i, v, ID1) =>
    .ok ⟨ID1, σ.built ++ [.svBinaryOp i v s1 v2]⟩
  | .vsBinaryOp v v1 p2 =>
    (σ.deref p2).bind fun s2 =>
    (Symbol.base v σ.ID).bind fun (i, v, ID1) =>
    .ok ⟨ID1, σ.built ++ [.vsBinaryOp i v v1 s2]⟩
  | .selectOp v p1 =>
    (σ.deref p1).bind fun s1 =>
    (Symbol.base v σ.ID).bind fun (i, v, ID1) =>
    .ok ⟨ID1, σ.built ++ [.selectOp i v s1]⟩
  | .ssSelectOp v p1 p2 p3 =>
    (σ.deref p1).bind fun s1 => (σ.deref p2).bind fun s2 =>
    (σ.deref p3).bind fun s3 =>
    (Symbol.base v σ.ID).bind fun (i, v, ID1) =>
    .ok ⟨ID1, σ.built ++ [.ssSelectOp i v s1 s2 s3]⟩
  | .vsSelectOp v p1 v2 p3 =>
    (σ.deref p1).bind fun s1 => (σ.deref p3).bind fun s3 =>
    (Symbol.base v σ.ID).bind fun (i, v, ID1) =>
    .ok ⟨ID1, σ.built ++ [.vsSelectOp i v s1 v2 s3]⟩
  | .svSelectOp v p1 p2 v3 =>
    (σ.deref p1).bind fun s1 => (σ.deref p2).bind fun s2 =>
    (Symbol.base v σ.ID).bind fun (i, v, ID1) =>
    .ok ⟨ID1, σ.built ++ [.svSelectOp i v s1 s2 v3]⟩
  | .vvSelectOp v p1 v2 v3 =>
    (σ.deref p1).bind fun s1 =>
    (Symbol.base v σ.ID).bind fun (i, v, ID1) =>
    .ok ⟨ID1, σ.built ++ [.vvSelectOp i v s1 v2 v3]⟩
  | .castOp v p1 =>
    (σ.deref p1).bind fun s1 =>
    (Symbol.base v σ.ID).bind fun (i, v, ID1) =>
    .ok ⟨ID1, σ.built ++ [.castOp i v s1]⟩
  | .gepOp ptr a p1 =>
    (σ.deref p1).bind fun s1 =>
    (Symbol.base ptr σ.ID).bind fun (i, ptr, ID1) =>
    .ok ⟨ID1, σ.built ++ [.gepOp i ptr a s1]⟩

/-- Running constructor calls one after the other. -/
def run : List Ctor → State → Outcome State
  | [], σ => .ok σ
  | c :: cs, σ => (construct c σ).bind (run cs)

/-- The operand relation of the node graph: `b` is an operand of `a`. -/
def Symbol.refersTo (a b : Symbol) : Prop := b ∈ a.operands

/-- The invariant of construction from the counter value `c0`: the counter
has advanced once per node, the node at position `j` has id `c0 + j` modulo
`2 ^ 32`, and every operand of a node stands at an earlier position. -/
def Inv (c0 : Nat) (σ : State) : Prop :=
  σ.ID = (c0 + σ.built.length) % idModulus ∧
  (∀ (j : Nat) (n : Symbol), σ.built[j]? = some n → n.currentID = (c0 + j) % idModulus) ∧
  (∀ (j : Nat) (n : Symbol), σ.built[j]? = some n →
    ∀ o ∈ n.operands, ∃ i : Nat, i < j ∧ σ.built[i]? = some o)

/-! ## Meaning of expressions -/

/-- Values an expression can take in a model. -/
inductive Val where
  | bool (b : Bool)
  | int (n : Int)
  deriving DecidableEq, Repr

/-- An interpretation of the symbols the logic leaves open: concrete and
symbolic values, the operation of an instruction, function application. -/
structure Model where
  value : Value → Val
  symbol : Value → Val
  op : Value → Val → Val → Val
  app : Val → Val → Val

/-- Modelled from the spec: the meaning of the terms the builders of
`Logic/Expression.h` (absent from the sources) make: numeric literal,
conditional expression, disequality, function application.  An ill-typed term
has no value. -/
def Expr.eval (M : Model) : Expr → Option Val
  | .ofValue v => some (M.value v)
  | .ofSymbol v => some (M.symbol v)
  | .sint32 n => some (.int n)
  | .op e1 e2 I =>
    match e1.eval M, e2.eval M with
    | some x, some y => some (M.op I x y)
    | _, _ => none
  | .ite e1 e2 e3 =>
    match e1.eval M with
    | some (.bool true) => e2.eval M
    | some (.bool false) => e3.eval M
    | _ => none
  | .diseq e1 e2 =>
    match e1.eval M, e2.eval M with
    | some (.int x), some (.int y) => some (.bool (x != y))
    | some (.bool x), some (.bool y) => some (.bool (x != y))
    | _, _ => none
  | .app e1 e2 =>
    match e1.eval M, e2.eval M with
    | some f, some x => some (M.app f x)
    | _, _ => none

/-! ## Fault localization: instrumentation and the diagnosis engine

`FaultLocalization.h` declares `run`, `allDiagnosis`, `allMinMCS` and
`avToClauses`; their bodies, the formulas, the solver and the combiner are
not among the sources.  This part follows sections 4.2 to 4.4 of the
specification. -/

namespace FaultLocalization

/-- Modelled from the spec: a conjunct of the transition formula TF
(`Logic/Formula.h` is absent): the semantic constraint of one statement over
program states `α`, with the caller's mark whether the statement is
locatable. -/
structure Transition (α : Type) where
  locatable : Bool
  holds : α → Bool

/-- Modelled from the spec: a conjunct of the instrumented formula,
`AV ⇒ transition` when the statement has the activation variable `av`, the
bare transition otherwise. -/
structure Guarded (α : Type) where
  av : Option Nat
  transition : α → Bool

/-- Modelled from the spec: the instrumentation of section 4.2, absent from
the sources.  Every locatable conjunct gets a fresh activation variable, the
position of its statement counted from `k`; the others stay unguarded. -/
def instrumentFrom {α : Type} (k : Nat) : List (Transition α) → List (Guarded α)
  | [] => []
  | c :: cs =>
    ⟨if c.locatable then some k else none, c.holds⟩ :: instrumentFrom (k + 1) cs

/-- Modelled from the spec: the instrumented transition formula of TF. -/
def instrument {α : Type} (TF : List (Transition α)) : List (Guarded α) :=
  instrumentFrom 0 TF

/-- The value of a guarded conjunct in state `x` under the assignment `av` of
the activation variables. -/
def Guarded.holds {α : Type} (g : Guarded α) (av : Nat → Bool) (x : α) : Bool :=
  match g.av with
  | some a => !av a || g.transition x
  | none => g.transition x

/-- The value of the transition formula, the conjunction of its conjuncts. -/
def evalTF {α : Type} (TF : List (Transition α)) (x : α) : Bool :=
  TF.all fun c => c.holds x

/-- The value of an instrumented formula under an assignment of the
activation variables. -/
def evalInstrumented {α : Type} (G : List (Guarded α)) (av : Nat → Bool) (x : α) :
    Bool :=
  G.all fun g => g.holds av x

/-- The activation variables of an instrumented formula, the vector `AV`. -/
def activationVariables {α : Type} (G : List (Guarded α)) : List Nat :=
  G.filterMap fun g => g.av

/-- Modelled from the spec: what the diagnosis engine is given: the states the
solver searches, the transition formula and the pre- and postcondition. -/
structure Problem (α : Type) where
  states : List α
  TF : List (Transition α)
  preCond : α → Bool
  postCond : α → Bool

/-- Modelled from the spec: the verdict of the constraint solver
(`Logic/YicesSolver.h` is absent) on a formula over program states: SAT when
some state makes it true. -/
def satisfiable {α : Type} (states : List α) (f : α → Bool) : Bool :=
  states.any f

namespace Problem

/-- The activation variables of the problem's instrumented formula. -/
def AV {α : Type} (P : Problem α) : List Nat :=
  activationVariables (instrument P.TF)

/-- The assignment that relaxes exactly `C`: the activation variables in `C`
are false, all others true. -/
def relaxing (C : List Nat) : Nat → Bool :=
  fun a => !C.contains a

/-- Whether `TF-instrumented ∧ preCond ∧ postCond` is satisfiable when exactly
the activation variables of `C` are relaxed. -/
def satRelaxing {α : Type} (P : Problem α) (C : List Nat) : Bool :=
  satisfiable P.states fun x =>
    P.preCond x && P.postCond x && evalInstrumented (instrument P.TF) (relaxing C) x

/-- Whether the uninstrumented `TF ∧ preCond ∧ postCond` is satisfiable. -/
def satOriginal {α : Type} (P : Problem α) : Bool :=
  satisfiable P.states fun x => P.preCond x && P.postCond x && evalTF P.TF x

/-- Whether the instrumented formula with every activation variable asserted
true is satisfiable together with the pre- and postcondition. -/
def satAllTrue {α : Type} (P : Problem α) : Bool :=
  satisfiable P.states fun x =>
    P.preCond x && P.postCond x && evalInstrumented (instrument P.TF) (fun _ => true) x

end Problem

/-- The subsets of a list of activation variables, each in the order of the
list. -/
def subsets : List Nat → List (List Nat)
  | [] => [[]]
  | a :: l => subsets l ++ (subsets l).map fun s => a :: s

/-- Modelled from the spec: the constraint solver's choice of a model.  Of
the assignments that satisfy the asserted formula it answers with one, given
by the set of activation variables the model makes false; `none` is UNSAT. -/
structure Solver where
  pick : List (List Nat) → Option (List Nat)

/-- The solver answers with a satisfying assignment whenever there is one, and
only with such. -/
def Solver.Sound (S : Solver) : Prop :=
  ∀ l : List (List Nat), (∀ c, S.pick l = some c → c ∈ l) ∧ (S.pick l = none → l = [])

/-- A solver that answers with the first satisfying assignment. -/
def firstModel : Solver := ⟨List.head?⟩

/-- Whether a blocking constraint forbids `C`: `C` is a recorded set or a
superset of one. -/
def blocked (found : List (List Nat)) (C : List Nat) : Bool :=
  found.any fun B => B.all fun b => C.contains b

/-- The assignments that satisfy the instrumented formula with pre- and
postcondition under the blocking constraints. -/
def candidates {α : Type} (P : Problem α) (found : List (List Nat)) : List (List Nat) :=
  (subsets P.AV).filter fun C => P.satRelaxing C && !blocked found C

/-- Modelled from the spec: step 2, one solver call under the accumulated
blocking constraints; the answer is the candidate set `{i : AV_i = false}`. -/
def solve {α : Type} (S : Solver) (P : Problem α) (found : List (List Nat)) :
    Option (List Nat) :=
  S.pick (candidates P found)

/-- Modelled from the spec: step 3.  A member whose reinstatement keeps the
formula satisfiable is dropped, and this is repeated until no member can be
dropped; `k` bounds the number of drops. -/
def minimizeLoop {α : Type} (P : Problem α) : Nat → List Nat → List Nat
  | 0, C => C
  | k + 1, C =>
    match C.find? fun m => P.satRelaxing (C.filter fun a => a != m) with
    | none => C
    | some m => minimizeLoop P k (C.filter fun a => a != m)

/-- Modelled from the spec: step 3, minimization of a candidate set; a set of
`n` members allows at most `n` drops. -/
def minimize {α : Type} (P : Problem α) (C : List Nat) : List Nat :=
  minimizeLoop P C.length C

/-- Modelled from the spec: steps 2 to 5, the solve/minimize/block loop.
`found` holds the recorded sets, each of which is a blocking constraint;
`none` when the loop is cut off after `k` rounds. -/
def enumerate {α : Type} (S : Solver) (P : Problem α) :
    Nat → List (List Nat) → Option (List (List Nat))
  | 0, _ => none
  | k + 1, found =>
    match solve S P found with
    | none => some found
    | some C => enumerate S P k (found ++ [minimize P C])

/-- The number of rounds the loop is given: one for each subset of the
activation variables and one to see UNSAT. -/
def rounds {α : Type} (P : Problem α) : Nat := 2 ^ P.AV.length + 1

/-- Modelled from the spec: `FaultLocalization::allMinMCS`, declared in
`FaultLocalization.h`, body absent.  Step 1 solves with all activation
variables true; if that is satisfiable the diagnosis set is empty, otherwise
the loop enumerates the minimal correction subsets. -/
def allMinMCS {α : Type} (S : Solver) (P : Problem α) : Option (List (List Nat)) :=
  if P.satRelaxing [] then some [] else enumerate S P (rounds P) []

/-- Modelled from the spec: a trace, the states that agree with the concrete
input and output values of one execution. -/
abbrev ProgramTrace (α : Type) := α → Bool

/-- The problem of one trace: the precondition is joined with the trace. -/
def Problem.onTrace {α : Type} (P : Problem α) (t : ProgramTrace α) : Problem α :=
  { P with preCond := fun x => P.preCond x && t x }

/-- Modelled from the spec: `FaultLocalization::allDiagnosis`, declared in
`FaultLocalization.h`, body absent: the minimal correction subsets of every
trace. -/
def allDiagnosis {α : Type} (S : Solver) (P : Problem α)
    (traces : List (ProgramTrace α)) : List (Option (List (List Nat))) :=
  traces.map fun t => allMinMCS S (P.onTrace t)

/-- Modelled from the spec: a correction subset is minimal if no proper subset
also makes the formula satisfiable; checked over every subset. -/
def isMinimalCorrection {α : Type} (P : Problem α) (C : List Nat) : Bool :=
  P.satRelaxing C && (subsets C).all fun E => E == C || !P.satRelaxing E

/-- All minimal correction subsets by brute-force enumeration over every
subset of the activation variables. -/
def bruteForce {α : Type} (P : Problem α) : List (List Nat) :=
  (subsets P.AV).filter fun C => isMinimalCorrection P C

/-- The invariant of the loop: every recorded set is a set of activation
variables that is a correction subset and stops being one when any single
member is reinstated, and no set is recorded twice. -/
def Recorded {α : Type} (P : Problem α) (found : List (List Nat)) : Prop :=
  (∀ B ∈ found, B.Sublist P.AV ∧ P.satRelaxing B = true ∧
    ∀ m ∈ B, P.satRelaxing (B.filter fun a => a != m) = false) ∧
  found.Nodup

/-! ### The trace combiner -/

/-- Modelled from the spec: the Union policy of section 4.4 (`Logic/Combine.h`
is absent): the statements of all traces' sets, each once. -/
def union (sets : List (List Nat)) : List Nat :=
  sets.flatten.dedup

/-- Modelled from the spec: the Intersection policy of section 4.4: the
statements of the first trace's set that are present in every other trace's
set; nothing when there is no trace. -/
def intersection : List (List Nat) → List Nat
  | [] => []
  | t :: ts => (t.filter fun s => ts.all fun u => u.contains s).dedup

/-- Modelled from the spec: the score of a statement, the number of traces'
sets it occurs in. -/
def score (sets : List (List Nat)) (s : Nat) : Nat :=
  sets.countP fun t => t.contains s

/-- The order of the ranking: higher score first, equal scores in statement
order. -/
def rankedBefore (sets : List (List Nat)) (a b : Nat) : Prop :=
  score sets b < score sets a ∨ (score sets a = score sets b ∧ a ≤ b)

instance (sets : List (List Nat)) : DecidableRel (rankedBefore sets) :=
  fun a b => by unfold rankedBefore; infer_instance

/-- Modelled from the spec: the Ranking policy of section 4.4: the statements
of the traces' sets ordered by descending score, ties in statement order. -/
def ranking (sets : List (List Nat)) : List Nat :=
  (union sets).insertionSort (rankedBefore sets)

/-- The ranking with the score of each statement. -/
def rankingWithScores (sets : List (List Nat)) : List (Nat × Nat) :=
  (ranking sets).map fun s => (s, score sets s)

/-! ### A sample problem -/

/-- States of the sample program: the values of `y` and `z`, each in 0..3. -/
def sampleStates : List (Nat × Nat) :=
  (List.range 4).flatMap fun y => (List.range 4).map fun z => (y, z)

/-- The sample program `y = 1; z = y + 1;` with the unlocatable bound
`z ≤ 3`, run against the postcondition `z = 3`. -/
def sampleProblem : Problem (Nat × Nat) where
  states := sampleStates
  TF := [⟨true, fun x => x.1 == 1⟩, ⟨true, fun x => x.2 == x.1 + 1⟩,
    ⟨false, fun x => x.2 ≤ 3⟩]
  preCond := fun _ => true
  postCond := fun x => x.2 == 3

end FaultLocalization

/-! ## Sample values and nodes -/

/-- The argument `i32 %x`. -/
def argX : Value := .argument (.integer 32) 0

/-- The argument `i1 %b`. -/
def argB : Value := .argument (.integer 1) 1

/-- The argument `i8 %c`. -/
def argC : Value := .argument (.integer 8) 2

/-- The array base `%a`, a pointer. -/
def baseA : Value := .argument .pointer 3

/-- The instruction `zext i1 %b to i32`. -/
def zextB : Value := .instruction .zext (.integer 32) [argB]

/-- The instruction `trunc i32 %x to i1`. -/
def truncX : Value := .instruction .trunc (.integer 1) [argX]

/-- The instruction `zext i8 %c to i64`. -/
def zextC : Value := .instruction .zext (.integer 64) [argC]

/-- The instruction `add i32 %x, 1`. -/
def addX : Value :=
  .instruction .add (.integer 32) [argX, .constantInt (.integer 32) 1]

/-- The instruction `getelementptr %a, %x`. -/
def gepA : Value := .instruction .getelementptr .pointer [baseA, argX]

/-- The instruction `select i1 %b, i32 %x, i32 0`. -/
def selB : Value :=
  .instruction .select (.integer 32) [argB, argX, .constantInt (.integer 32) 0]

/-- An `Input` node for `%x`, the first node constructed. -/
def inX : Symbol := .input 0 argX

/-- An `Input` node for `%c`, the first node constructed. -/
def inC : Symbol := .input 0 argC

/-- An `Input` node for `%b`, the first node constructed. -/
def inB : Symbol := .input 0 argB

/-- Three constructor calls along a trace: the input `%x`, then
`add i32 %x, 1` over it, then `getelementptr %a, ...` with the sum as
offset. -/
def sampleCalls : List Ctor :=
  [.input (some argX), .svBinaryOp (some addX) 0 (.constantInt (.integer 32) 1),
    .gepOp (some gepA) baseA 1]

/-- The node of `add i32 %x, 1`, the second node constructed. -/
def addNode : Symbol := .svBinaryOp 1 addX inX (.constantInt (.integer 32) 1)

/-- The state `sampleCalls` leads to from counter value 0. -/
def sampleState : State := ⟨3, [inX, addNode, .gepOp 2 gepA baseA addNode]⟩

/-- The state of a second build of `sampleCalls` in a process whose counter
stands at 3 after the first build. -/
def sampleStateAgain : State :=
  ⟨6, [.input 3 argX, .svBinaryOp 4 addX (.input 3 argX) (.constantInt (.integer 32) 1),
    .gepOp 5 gepA baseA
      (.svBinaryOp 4 addX (.input 3 argX) (.constantInt (.integer 32) 1))]⟩

/-- The cast node of `zext i1 %b to i32` over the input node of `%b`. -/
def zextNode : Symbol := .castOp 1 zextB inB

/-- The instruction `trunc i32 %w to i1`, `%w` being `zext i1 %b to i32`. -/
def truncZ : Value := .instruction .trunc (.integer 1) [zextB]

/-! ## Sequencing lemmas -/

theorem Outcome.bind_eq_ok {α β : Type} (x : Outcome α) (k : α → Outcome β) (b : β) :
    x.bind k = .ok b ↔ ∃ a, x = .ok a ∧ k a = .ok b := by
  cases x <;> simp [Outcome.bind]

theorem Outcome.bind_ok {α β : Type} (a : α) (k : α → Outcome β) :
    (Outcome.ok a).bind k = k a := rfl

/-! ## Cast nodes -/

/-- A Cast node over an instruction whose width pair is neither (1, 32) nor
(32, 1) is never stopped by an error: conversion ends without returning. -/
theorem Symbol.castOp_unsupported_undefined (id : Nat) (v I v1 : Value) (s : Symbol)
    (σ : Alloc) (hI : v.dynCastInstruction = some I) (hop : I.getOperand 0 = some v1)
    (hw : (v1.getType.isIntegerTy 1 && v.getType.isIntegerTy 32) = false)
    (hn : (v1.getType.isIntegerTy 32 && v.getType.isIntegerTy 1) = false) :
    Symbol.convertToExpr (.castOp id v s) σ = .undefined := by
  simp [Symbol.convertToExpr, hI, hop, hw, hn, assert]

/-- C1 (code at the failing input): the Cast node for `zext i8 %c to i64`, a
width pair that is neither (1, 32) nor (32, 1), is not stopped by an error:
`assert("Unsupported cast operation!")` holds, and `convertToExpr` ends
without returning, which is undefined behaviour, not an abort. -/
theorem castOp_unsupported_not_aborted :
    zextC.dynCastInstruction = some zextC ∧
    zextC.getOperand 0 = some argC ∧
    (argC.getType, zextC.getType) = (Ty.integer 8, Ty.integer 64) ∧
    Symbol.convertToExpr (.castOp 1 zextC inC) 0 = .undefined ∧
    (Symbol.convertToExpr (.castOp 1 zextC inC) 0).isAbort = false := by
  refine ⟨rfl, rfl, rfl, rfl, rfl⟩

/-- C3: a Cast node from a 1-bit to a 32-bit integer converts to
`ite(e1, 1, 0)`, `e1` being the expression of its operand node and `1`, `0`
signed 32-bit literals; in a model where `e1` is true the result is `1`, where
`e1` is false it is `0`. -/
theorem castOp_i1_to_i32 (id : Nat) (v I v1 : Value) (s : Symbol) (σ σ1 : Alloc)
    (e1 : ExprPtr)
    (hI : v.dynCastInstruction = some I) (hop : I.getOperand 0 = some v1)
    (h1 : v1.getType.isIntegerTy 1 = true) (h32 : v.getType.isIntegerTy 32 = true)
    (hs : s.convertToExpr (Expression.mkSInt32Num 0 (Expression.mkSInt32Num 1 σ).2).2
      = .ok (e1, σ1)) :
    Symbol.convertToExpr (.castOp id v s) σ
      = .ok (Expression.mkIte e1 (Expression.mkSInt32Num 1 σ).1
          (Expression.mkSInt32Num 0 (Expression.mkSInt32Num 1 σ).2).1 σ1) ∧
    ∃ r σ2, Symbol.convertToExpr (.castOp id v s) σ = .ok (r, σ2) ∧
      r.term = .ite e1.term (.sint32 1) (.sint32 0) ∧
      ∀ M : Model,
        (e1.term.eval M = some (.bool true) → r.term.eval M = some (.int 1)) ∧
        (e1.term.eval M = some (.bool false) → r.term.eval M = some (.int 0)) := by
  have hconv : Symbol.convertToExpr (.castOp id v s) σ
      = .ok (Expression.mkIte e1 (Expression.mkSInt32Num 1 σ).1
          (Expression.mkSInt32Num 0 (Expression.mkSInt32Num 1 σ).2).1 σ1) := by
    simp only [Symbol.convertToExpr, hI, hop, h1, h32, Bool.and_self, if_true, hs,
      Outcome.bind_ok]
  refine ⟨hconv, _, _, hconv, rfl, fun M => ⟨fun h => ?_, fun h => ?_⟩⟩
  · simp [Expression.mkIte, Expression.mkSInt32Num, Expression.build, Expr.eval, h]
  · simp [Expression.mkIte, Expression.mkSInt32Num, Expression.build, Expr.eval, h]

/-- C3 at `zext i1 %b to i32` over the input node of `%b`. -/
theorem castOp_i1_to_i32_witness :
    Symbol.convertToExpr (.castOp 1 zextB inB) 0
      = .ok (⟨3, .ite (.ofSymbol argB) (.sint32 1) (.sint32 0)⟩, 4) :=
  (castOp_i1_to_i32 1 zextB zextB argB inB 0 3 ⟨2, .ofSymbol argB⟩ rfl rfl rfl rfl rfl).1

/-- C4: a Cast node from a 32-bit to a 1-bit integer converts to the
disequality `e1 ≠ 0`, `e1` being the expression of its operand node and `0` a
signed 32-bit literal; in a model where `e1` is `0` the result is false, where
`e1` is a non-zero integer it is true. -/
theorem castOp_i32_to_i1 (id : Nat) (v I v1 : Value) (s : Symbol) (σ σ1 : Alloc)
    (e1 : ExprPtr)
    (hI : v.dynCastInstruction = some I) (hop : I.getOperand 0 = some v1)
    (h32 : v1.getType.isIntegerTy 32 = true) (h1 : v.getType.isIntegerTy 1 = true)
    (hs : s.convertToExpr (Expression.mkSInt32Num 0 σ).2 = .ok (e1, σ1)) :
    Symbol.convertToExpr (.castOp id v s) σ
      = .ok (Expression.mkDiseq e1 (Expression.mkSInt32Num 0 σ).1 σ1) ∧
    ∃ r σ2, Symbol.convertToExpr (.castOp id v s) σ = .ok (r, σ2) ∧
      r.term = .diseq e1.term (.sint32 0) ∧
      ∀ M : Model,
        (e1.term.eval M = some (.int 0) → r.term.eval M = some (.bool false)) ∧
        (∀ n : Int, n ≠ 0 → e1.term.eval M = some (.int n) →
          r.term.eval M = some (.bool true)) := by
  have hne : (v1.getType.isIntegerTy 1 && v.getType.isIntegerTy 32) = false := by
    cases hv : v.getType <;> simp_all [Ty.isIntegerTy]
  have hconv : Symbol.convertToExpr (.castOp id v s) σ
      = .ok (Expression.mkDiseq e1 (Expression.mkSInt32Num 0 σ).1 σ1) := by
    simp only [Symbol.convertToExpr, hI, hop, h1, h32, hne, Bool.and_self, if_true, hs,
      Outcome.bind_ok, Bool.false_eq_true, if_false]
  refine ⟨hconv, _, _, hconv, rfl, fun M => ⟨fun h => ?_, fun n hn h => ?_⟩⟩
  · simp [Expression.mkDiseq, Expression.mkSInt32Num, Expression.build, Expr.eval, h]
  · simp [Expression.mkDiseq, Expression.mkSInt32Num, Expression.build, Expr.eval, h, hn]

/-- C4 at `trunc i32 %x to i1` over the input node of `%x`. -/
theorem castOp_i32_to_i1_witness :
    Symbol.convertToExpr (.castOp 1 truncX inX) 0
      = .ok (⟨2, .diseq (.ofSymbol argX) (.sint32 0)⟩, 3) :=
  (castOp_i32_to_i1 1 truncX truncX argX inX 0 2 ⟨1, .ofSymbol argX⟩ rfl rfl rfl rfl rfl).1

/-! ## Conversion builds anew on every call -/

/-- A successful conversion builds the same term at every allocation count,
and its result is the last of the objects it creates. -/
theorem Symbol.convertToExpr_uniform (n : Symbol) :
    ∀ σ r, n.convertToExpr σ = .ok r →
      ∃ k t, ∀ σ1, n.convertToExpr σ1 = .ok (⟨σ1 + k, t⟩, σ1 + k + 1) := by
  induction n with
  | symbol i v => intro σ r _; exact ⟨0, .ofSymbol v, fun σ1 => rfl⟩
  | input i v => intro σ r _; exact ⟨0, .ofSymbol v, fun σ1 => rfl⟩
  | selectOp i v s1 _ => intro σ r _; exact ⟨0, .ofSymbol v, fun σ1 => rfl⟩
  | ssBinaryOp i v s1 s2 ih1 ih2 =>
    intro σ r h
    cases hI : v.dynCastInstruction with
    | none => simp [Symbol.convertToExpr, hI] at h
    | some I =>
      simp only [Symbol.convertToExpr, hI, Outcome.bind_eq_ok] at h
      obtain ⟨⟨e1, σ1⟩, h1, ⟨e2, σ2⟩, h2, _⟩ := h
      obtain ⟨k1, t1, H1⟩ := ih1 _ _ h1
      obtain ⟨k2, t2, H2⟩ := ih2 _ _ h2
      refine ⟨k1 + 1 + k2 + 1, .op t1 t2 I, fun σ' => ?_⟩
      simp [Symbol.convertToExpr, hI, H1, H2, Outcome.bind_ok, Expression.mkOp,
        Expression.build, Nat.add_assoc]
  | svBinaryOp i v s1 v2 ih1 =>
    intro σ r h
    cases hI : v.dynCastInstruction with
    | none => simp [Symbol.convertToExpr, hI] at h
    | some I =>
      simp only [Symbol.convertToExpr, hI, Outcome.bind_eq_ok] at h
      obtain ⟨⟨e1, σ1⟩, h1, _⟩ := h
      obtain ⟨k1, t1, H1⟩ := ih1 _ _ h1
      refine ⟨k1 + 1 + 1, .op t1 (.ofValue v2) I, fun σ' => ?_⟩
      simp [Symbol.convertToExpr, hI, H1, Outcome.bind_ok, Expression.mkOp,
        Expression.getExprFromValue, Expression.build, Nat.add_assoc]
  | vsBinaryOp i v v1 s2 ih2 =>
    intro σ r h
    cases hI : v.dynCastInstruction with
    | none => simp [Symbol.convertToExpr, hI] at h
    | some I =>
      simp only [Symbol.convertToExpr, hI, Outcome.bind_eq_ok] at h
      obtain ⟨⟨e2, σ2⟩, h2, _⟩ := h
      obtain ⟨k2, t2, H2⟩ := ih2 _ _ h2
      refine ⟨1 + k2 + 1, .op (.ofValue v1) t2 I, fun σ' => ?_⟩
      simp [Symbol.convertToExpr, hI, H2, Outcome.bind_ok, Expression.mkOp,
        Expression.getExprFromValue, Expression.build, Nat.add_assoc]
  | ssSelectOp i v s1 s2 s3 ih1 ih2 ih3 =>
    intro σ r h
    cases hS : v.isaSelectInst with
    | false => simp [Symbol.convertToExpr, hS, assert] at h
    | true =>
      simp only [Symbol.convertToExpr, hS, assert, if_true, Outcome.bind_eq_ok] at h
      obtain ⟨⟨e1, σ1⟩, h1, ⟨e2, σ2⟩, h2, ⟨e3, σ3⟩, h3, _⟩ := h
      obtain ⟨k1, t1, H1⟩ := ih1 _ _ h1
      obtain ⟨k2, t2, H2⟩ := ih2 _ _ h2
      obtain ⟨k3, t3, H3⟩ := ih3 _ _ h3
      refine ⟨k1 + 1 + k2 + 1 + k3 + 1, .ite t1 t2 t3, fun σ' => ?_⟩
      simp [Symbol.convertToExpr, hS, assert, H1, H2, H3, Outcome.bind_ok,
        Expression.mkIte, Expression.build, Nat.add_assoc]
  | vsSelectOp i v s1 v2 s3 ih1 ih3 =>
    intro σ r h
    cases hS : v.isaSelectInst with
    | false => simp [Symbol.convertToExpr, hS, assert] at h
    | true =>
      simp only [Symbol.convertToExpr, hS, assert, if_true, Outcome.bind_eq_ok] at h
      obtain ⟨⟨e1, σ1⟩, h1, ⟨e3, σ3⟩, h3, _⟩ := h
      obtain ⟨k1, t1, H1⟩ := ih1 _ _ h1
      obtain ⟨k3, t3, H3⟩ := ih3 _ _ h3
      refine ⟨k1 + 1 + 1 + k3 + 1, .ite t1 (.ofValue v2) t3, fun σ' => ?_⟩
      simp [Symbol.convertToExpr, hS, assert, H1, H3, Outcome.bind_ok,
        Expression.mkIte, Expression.getExprFromValue, Expression.build, Nat.add_assoc]
      constructor <;> ring
  | svSelectOp i v s1 s2 v3 ih1 ih2 =>
    intro σ r h
    cases hS : v.isaSelectInst with
    | false => simp [Symbol.convertToExpr, hS, assert] at h
    | true =>
      simp only [Symbol.convertToExpr, hS, assert, if_true, Outcome.bind_eq_ok] at h
      obtain ⟨⟨e1, σ1⟩, h1, ⟨e2, σ2⟩, h2, _⟩ := h
      obtain ⟨k1, t1, H1⟩ := ih1 _ _ h1
      obtain ⟨k2, t2, H2⟩ := ih2 _ _ h2
      refine ⟨k1 + 1 + k2 + 1 + 1, .ite t1 t2 (.ofValue v3), fun σ' => ?_⟩
      simp [Symbol.convertToExpr, hS, assert, H1, H2, Outcome.bind_ok,
        Expression.mkIte, Expression.getExprFromValue, Expression.build, Nat.add_assoc]
  | vvSelectOp i v s1 v2 v3 ih1 =>
    intro σ r h
    cases hS : v.isaSelectInst with
    | false => simp [Symbol.convertToExpr, hS, assert] at h
    | true =>
      simp only [Symbol.convertToExpr, hS, assert, if_true, Outcome.bind_eq_ok] at h
      obtain ⟨⟨e1, σ1⟩, h1, _⟩ := h
      obtain ⟨k1, t1, H1⟩ := ih1 _ _ h1
      refine ⟨k1 + 1 + 1 + 1, .ite t1 (.ofValue v2) (.ofValue v3), fun σ' => ?_⟩
      simp [Symbol.convertToExpr, hS, assert, H1, Outcome.bind_ok,
        Expression.mkIte, Expression.getExprFromValue, Expression.build, Nat.add_assoc]
  | castOp i v s1 ih1 =>
    intro σ r h
    cases hI : v.dynCastInstruction with
    | none => simp [Symbol.convertToExpr, hI] at h
    | some I =>
      cases hop : I.getOperand 0 with
      | none => simp [Symbol.convertToExpr, hI, hop] at h
      | some v1 =>
        simp only [Symbol.convertToExpr, hI, hop] at h
        by_cases hw : (v1.getType.isIntegerTy 1 && v.getType.isIntegerTy 32) = true
        · simp only [hw, if_true, Outcome.bind_eq_ok] at h
          obtain ⟨⟨e1, σ1⟩, h1, _⟩ := h
          obtain ⟨k1, t1, H1⟩ := ih1 _ _ h1
          refine ⟨1 + 1 + k1 + 1, .ite t1 (.sint32 1) (.sint32 0), fun σ' => ?_⟩
          simp only [Symbol.convertToExpr, hI, hop, hw, if_true, H1, Outcome.bind_ok]
          simp [Expression.mkIte, Expression.mkSInt32Num, Expression.build, Nat.add_assoc]
        · rw [Bool.not_eq_true] at hw
          by_cases hn : (v1.getType.isIntegerTy 32 && v.getType.isIntegerTy 1) = true
          · simp only [hw, hn, if_true, if_false, Bool.false_eq_true,
              Outcome.bind_eq_ok] at h
            obtain ⟨⟨e1, σ1⟩, h1, _⟩ := h
            obtain ⟨k1, t1, H1⟩ := ih1 _ _ h1
            refine ⟨1 + k1 + 1, .diseq t1 (.sint32 0), fun σ' => ?_⟩
            simp only [Symbol.convertToExpr, hI, hop, hw, hn, if_true, if_false, H1,
              Bool.false_eq_true, Outcome.bind_ok]
            simp [Expression.mkDiseq, Expression.mkSInt32Num, Expression.build,
              Nat.add_assoc]
          · simp [hw, hn, assert] at h
  | gepOp i ptr a s1 ih1 =>
    intro σ r h
    simp only [Symbol.convertToExpr, Outcome.bind_eq_ok] at h
    obtain ⟨⟨e2, σ2⟩, h2, _⟩ := h
    obtain ⟨k2, t2, H2⟩ := ih1 _ _ h2
    refine ⟨1 + k2 + 1, .app (.ofValue a) t2, fun σ' => ?_⟩
    simp [Symbol.convertToExpr, H2, Outcome.bind_ok, Expression.mkApp,
      Expression.getExprFromValue, Expression.build, Nat.add_assoc]

/-- C2 (counterexample): the PointerOffset node for `getelementptr %a, %x`
converted twice.  The first call creates objects 0, 1, 2 and returns object 2;
the second call creates objects 3, 4, 5 and returns object 5: it builds the
expression again and does not return the object of the first call. -/
theorem convertToExpr_twice_not_memoized :
    Symbol.convertToExpr (.gepOp 1 gepA baseA inX) 0
      = .ok (⟨2, .app (.ofValue baseA) (.ofSymbol argX)⟩, 3) ∧
    Symbol.convertToExpr (.gepOp 1 gepA baseA inX) 3
      = .ok (⟨5, .app (.ofValue baseA) (.ofSymbol argX)⟩, 6) ∧
    Symbol.convertToExpr (.gepOp 1 gepA baseA inX) 3
      ≠ .ok (⟨2, .app (.ofValue baseA) (.ofSymbol argX)⟩, 3) := by
  refine ⟨rfl, rfl, fun h => ?_⟩
  have h5 : Symbol.convertToExpr (.gepOp 1 gepA baseA inX) 3
      = .ok (⟨5, .app (.ofValue baseA) (.ofSymbol argX)⟩, 6) := rfl
  rw [h5] at h
  simp at h

/-- C2 (amended): when converting a node succeeds, converting it again
succeeds too and gives a structurally equal expression; no `convertToExpr` of
`Symbol.h` memoizes: for a node of a class that defines the method, the
second call creates expression objects again and returns a new object,
created after the one the first call returned. -/
theorem convertToExpr_twice_rebuilds (n : Symbol) (σ σ1 : Nat) (e : ExprPtr)
    (h : n.convertToExpr σ = .ok (e, σ1)) :
    ∃ e2 σ2, n.convertToExpr σ1 = .ok (e2, σ2) ∧ e2.term = e.term ∧
      (n.definesConvertToExpr = true → e.addr < e2.addr ∧ σ1 < σ2) := by
  obtain ⟨k, t, H⟩ := Symbol.convertToExpr_uniform n σ _ h
  have h0 := H σ
  rw [h] at h0
  simp only [Outcome.ok.injEq, Prod.mk.injEq] at h0
  obtain ⟨he, hσ⟩ := h0
  subst he hσ
  refine ⟨_, _, H _, rfl, fun _ => ⟨?_, ?_⟩⟩
  · show σ + k < σ + k + 1 + k
    omega
  · show σ + k + 1 < σ + k + 1 + k + 1
    omega

/-- C2 (amended) at the PointerOffset node for `getelementptr %a, %x`. -/
theorem convertToExpr_twice_rebuilds_witness :
    ∃ e2 σ2, Symbol.convertToExpr (.gepOp 1 gepA baseA inX) 3 = .ok (e2, σ2) ∧
      e2.term = .app (.ofValue baseA) (.ofSymbol argX) ∧ 2 < e2.addr ∧ 3 < σ2 := by
  obtain ⟨e2, σ2, h1, h2, h3⟩ :=
    convertToExpr_twice_rebuilds (.gepOp 1 gepA baseA inX) 0 3
      ⟨2, .app (.ofValue baseA) (.ofSymbol argX)⟩ rfl
  exact ⟨e2, σ2, h1, h2, h3 rfl⟩

/-! ## Select shapes -/

/-- C5 (counterexample): not every symbolic/concrete combination with a
symbolic operand has a select shape; no select node holds a concrete
condition with symbolic then- and else-values, the combination
(concrete, symbolic, symbolic). -/
theorem select_shapes_miss_concrete_condition :
    ¬ (∀ c t e : Bool, (c || t || e) = true →
        ∃ s : Symbol, s.selectShape = some (c, t, e)) := by
  intro h
  obtain ⟨s, hs⟩ := h false true true rfl
  cases s <;> simp [Symbol.selectShape, Symbol.selectOperands, Operand.isSymbolic] at hs

/-- C5 (amended): the four select shapes hold the condition as a node in
every case, and with a symbolic condition they cover every placement of
concrete operands among the then- and else-positions. -/
theorem select_shapes_symbolic_condition :
    (∀ (s : Symbol) (c t e : Operand),
        s.selectOperands = some (c, t, e) → c.isSymbolic = true) ∧
    (∀ (i : Nat) (v : Value) (s1 : Symbol) (t e : Operand),
        ∃ s : Symbol, s.currentID = i ∧ s.getValue = v ∧
          s.selectOperands = some (.symbolic s1, t, e)) := by
  constructor
  · intro s c t e h
    cases s <;> simp [Symbol.selectOperands] at h <;>
      (obtain ⟨rfl, _, _⟩ := h; rfl)
  · intro i v s1 t e
    cases t with
    | symbolic s2 =>
      cases e with
      | symbolic s3 => exact ⟨.ssSelectOp i v s1 s2 s3, rfl, rfl, rfl⟩
      | concrete v3 => exact ⟨.svSelectOp i v s1 s2 v3, rfl, rfl, rfl⟩
    | concrete v2 =>
      cases e with
      | symbolic s3 => exact ⟨.vsSelectOp i v s1 v2 s3, rfl, rfl, rfl⟩
      | concrete v3 => exact ⟨.vvSelectOp i v s1 v2 v3, rfl, rfl, rfl⟩

/-- C5 (amended) at the node of `select i1 %b, i32 %x, i32 0` with a concrete
else-value. -/
theorem select_shapes_symbolic_condition_witness :
    (Operand.symbolic inB).isSymbolic = true :=
  select_shapes_symbolic_condition.1
    (.svSelectOp 2 selB inB inX (.constantInt (.integer 32) 0))
    (.symbolic inB) (.symbolic inX) (.concrete (.constantInt (.integer 32) 0)) rfl

/-! ## Binary operations and pointer offsets -/

/-- C6: each of the three BinaryOp shapes whose value is an instruction `I`
converts to `mkOp(e1, e2, I)`, `e1` from the first and `e2` from the second
operand in this order; a symbolic operand is converted recursively, a
concrete one is taken by `getExprFromValue`. -/
theorem binaryOp_convertToExpr (id : Nat) (v I : Value) (σ : Alloc)
    (hI : v.dynCastInstruction = some I) :
    (∀ (s1 s2 : Symbol) (e1 e2 : ExprPtr) (σ1 σ2 : Alloc),
        s1.convertToExpr σ = .ok (e1, σ1) → s2.convertToExpr σ1 = .ok (e2, σ2) →
        Symbol.convertToExpr (.ssBinaryOp id v s1 s2) σ
            = .ok (Expression.mkOp e1 e2 I σ2) ∧
          (Expression.mkOp e1 e2 I σ2).1.term = .op e1.term e2.term I) ∧
    (∀ (s1 : Symbol) (v2 : Value) (e1 : ExprPtr) (σ1 : Alloc),
        s1.convertToExpr σ = .ok (e1, σ1) →
        Symbol.convertToExpr (.svBinaryOp id v s1 v2) σ
            = .ok (Expression.mkOp e1 (Expression.getExprFromValue v2 σ1).1 I
                (Expression.getExprFromValue v2 σ1).2) ∧
          (Expression.mkOp e1 (Expression.getExprFromValue v2 σ1).1 I
                (Expression.getExprFromValue v2 σ1).2).1.term
            = .op e1.term (.ofValue v2) I) ∧
    (∀ (v1 : Value) (s2 : Symbol) (e2 : ExprPtr) (σ2 : Alloc),
        s2.convertToExpr (Expression.getExprFromValue v1 σ).2 = .ok (e2, σ2) →
        Symbol.convertToExpr (.vsBinaryOp id v v1 s2) σ
            = .ok (Expression.mkOp (Expression.getExprFromValue v1 σ).1 e2 I σ2) ∧
          (Expression.mkOp (Expression.getExprFromValue v1 σ).1 e2 I σ2).1.term
            = .op (.ofValue v1) e2.term I) ∧
    I = v := by
  refine ⟨?_, ?_, ?_, ?_⟩
  · intro s1 s2 e1 e2 σ1 σ2 h1 h2
    refine ⟨?_, rfl⟩
    simp only [Symbol.convertToExpr, hI, h1, h2, Outcome.bind_ok]
  · intro s1 v2 e1 σ1 h1
    refine ⟨?_, rfl⟩
    simp only [Symbol.convertToExpr, hI, h1, Outcome.bind_ok]
  · intro v1 s2 e2 σ2 h2
    refine ⟨?_, rfl⟩
    simp only [Symbol.convertToExpr, hI, h2, Outcome.bind_ok]
  · cases v <;> simp [Value.dynCastInstruction] at hI
    exact hI.symm

/-- C6 at `add i32 %x, 1` with a symbolic first and a concrete second
operand. -/
theorem binaryOp_convertToExpr_witness :
    Symbol.convertToExpr (.svBinaryOp 1 addX inX (.constantInt (.integer 32) 1)) 0
      = .ok (⟨2, .op (.ofSymbol argX) (.ofValue (.constantInt (.integer 32) 1)) addX⟩, 3) :=
  ((binaryOp_convertToExpr 1 addX addX 0 rfl).2.1 inX (.constantInt (.integer 32) 1)
    ⟨0, .ofSymbol argX⟩ 1 rfl).1

/-- C7: a PointerOffset node with concrete base `a` and offset node `s`
converts to exactly `mkApp(getExprFromValue(a), e2)`, the base applied to the
expression `e2` of the offset, and nothing else; a PointerOffset node holds
its base as a value and has the offset as its only operand node. -/
theorem gepOp_convertToExpr (id : Nat) (ptr a : Value) (s : Symbol) (σ σ2 : Alloc)
    (e2 : ExprPtr)
    (hs : s.convertToExpr (Expression.getExprFromValue a σ).2 = .ok (e2, σ2)) :
    Symbol.convertToExpr (.gepOp id ptr a s) σ
      = .ok (Expression.mkApp (Expression.getExprFromValue a σ).1 e2 σ2) ∧
    (Expression.mkApp (Expression.getExprFromValue a σ).1 e2 σ2).1.term
      = .app (.ofValue a) e2.term ∧
    (∀ t : Symbol, t.isGepOp = true →
      ∃ (i : Nat) (p b : Value) (o : Symbol), t = .gepOp i p b o ∧ t.operands = [o]) := by
  refine ⟨?_, rfl, ?_⟩
  · simp only [Symbol.convertToExpr, hs, Outcome.bind_ok]
  · intro t ht
    cases t <;> simp [Symbol.isGepOp] at ht
    exact ⟨_, _, _, _, rfl, rfl⟩

/-- C7 at `getelementptr %a, %x` over the input node of `%x`. -/
theorem gepOp_convertToExpr_witness :
    Symbol.convertToExpr (.gepOp 1 gepA baseA inX) 0
      = .ok (⟨2, .app (.ofValue baseA) (.ofSymbol argX)⟩, 3) :=
  (gepOp_convertToExpr 1 gepA baseA inX 0 2 ⟨1, .ofSymbol argX⟩ rfl).1

/-- C8 (code at the failing input): a PointerOffset node whose value is the
argument `%x`, not an instruction, is constructed without error and
`convertToExpr` returns an expression for it: `GepOpSymbol::convertToExpr`
never looks at the value of its node. -/
theorem gepOp_non_instruction_converts :
    argX.dynCastInstruction = none ∧
    run [.input (some argX), .gepOp (some argX) baseA 0] (.init 0)
      = .ok ⟨2, [inX, .gepOp 1 argX baseA inX]⟩ ∧
    Symbol.convertToExpr (.gepOp 1 argX baseA inX) 0
      = .ok (⟨2, .app (.ofValue baseA) (.ofSymbol argX)⟩, 3) := by
  refine ⟨rfl, rfl, rfl⟩

/-! ## Construction order and node ids -/

theorem State.deref_eq_ok (σ : State) (p : Nat) (s : Symbol) :
    σ.deref p = .ok s ↔ σ.built[p]? = some s := by
  unfold State.deref
  cases h : σ.built[p]? <;> simp

theorem Symbol.base_eq_ok (v : Option Value) (ID i ID1 : Nat) (w : Value) :
    Symbol.base v ID = .ok (i, w, ID1) ↔
      v = some w ∧ i = ID ∧ ID1 = (ID + 1) % idModulus := by
  unfold Symbol.base
  cases v <;> simp
  constructor
  · rintro ⟨rfl, rfl, rfl⟩; exact ⟨rfl, rfl, rfl⟩
  · rintro ⟨rfl, rfl, rfl⟩; exact ⟨rfl, rfl, rfl⟩

/-- A constructor call that returns adds one node, the youngest; the node
takes the counter as its id, the counter is incremented modulo `2 ^ 32`, and
every operand of the node is a node constructed before. -/
theorem construct_ok (c : Ctor) (σ σ1 : State) (h : construct c σ = .ok σ1) :
    ∃ n, σ1.built = σ.built ++ [n] ∧ n.currentID = σ.ID ∧
      σ1.ID = (σ.ID + 1) % idModulus ∧
      ∀ o ∈ n.operands, ∃ p : Nat, σ.built[p]? = some o := by
  cases c <;>
    simp only [construct, Outcome.bind_eq_ok, State.deref_eq_ok, Prod.exists,
      Symbol.base_eq_ok, Outcome.ok.injEq] at h
  all_goals
    first
    | (obtain ⟨i, w, ID1, ⟨_, rfl, rfl⟩, rfl⟩ := h
       exact ⟨_, rfl, rfl, rfl, by simp [Symbol.operands]⟩)
    | (obtain ⟨s1, h1, i, w, ID1, ⟨_, rfl, rfl⟩, rfl⟩ := h
       exact ⟨_, rfl, rfl, rfl, by simpa [Symbol.operands] using ⟨_, h1⟩⟩)
    | (obtain ⟨s1, h1, s2, h2, i, w, ID1, ⟨_, rfl, rfl⟩, rfl⟩ := h
       exact ⟨_, rfl, rfl, rfl, by simpa [Symbol.operands] using ⟨⟨_, h1⟩, ⟨_, h2⟩⟩⟩)
    | (obtain ⟨s1, h1, s2, h2, s3, h3, i, w, ID1, ⟨_, rfl, rfl⟩, rfl⟩ := h
       exact ⟨_, rfl, rfl, rfl,
        by simpa [Symbol.operands] using ⟨⟨_, h1⟩, ⟨_, h2⟩, ⟨_, h3⟩⟩⟩)

theorem Inv.init (c0 : Nat) (h : c0 < idModulus) : Inv c0 (State.init c0) := by
  refine ⟨?_, ?_, ?_⟩
  · simp [State.init, Nat.mod_eq_of_lt h]
  · intro j n hj; simp [State.init] at hj
  · intro j n hj; simp [State.init] at hj

theorem Inv.step (c0 : Nat) (c : Ctor) (σ σ1 : State) (hinv : Inv c0 σ)
    (h : construct c σ = .ok σ1) : Inv c0 σ1 := by
  obtain ⟨n, hb, hid, hID, hops⟩ := construct_ok c σ σ1 h
  obtain ⟨h1, h2, h3⟩ := hinv
  refine ⟨?_, ?_, ?_⟩
  · rw [hID, hb, h1, List.length_append, List.length_singleton]
    simp [idModulus, Nat.add_assoc]
  · intro j x hj
    rw [hb] at hj
    rcases Nat.lt_or_ge j σ.built.length with hlt | hge
    · rw [List.getElem?_append_left hlt] at hj
      exact h2 j x hj
    · rw [List.getElem?_append_right hge] at hj
      have hj0 : j - σ.built.length = 0 := by
        by_contra hne
        obtain ⟨m, hm⟩ := Nat.exists_eq_succ_of_ne_zero hne
        rw [hm] at hj
        simp at hj
      rw [hj0] at hj
      simp only [List.getElem?_cons_zero, Option.some.injEq] at hj
      subst hj
      have hjl : j = σ.built.length := by omega
      rw [hid, h1, hjl]
  · intro j x hj o ho
    rw [hb] at hj
    rcases Nat.lt_or_ge j σ.built.length with hlt | hge
    · rw [List.getElem?_append_left hlt] at hj
      obtain ⟨i, hi, hio⟩ := h3 j x hj o ho
      refine ⟨i, hi, ?_⟩
      rw [hb, List.getElem?_append_left (by omega)]
      exact hio
    · rw [List.getElem?_append_right hge] at hj
      have hj0 : j - σ.built.length = 0 := by
        by_contra hne
        obtain ⟨m, hm⟩ := Nat.exists_eq_succ_of_ne_zero hne
        rw [hm] at hj
        simp at hj
      rw [hj0] at hj
      simp only [List.getElem?_cons_zero, Option.some.injEq] at hj
      subst hj
      obtain ⟨p, hp⟩ := hops o ho
      have hpl : p < σ.built.length := by
        by_contra hnot
        rw [List.getElem?_eq_none (by omega)] at hp
        cases hp
      refine ⟨p, by omega, ?_⟩
      rw [hb, List.getElem?_append_left hpl]
      exact hp

/-- Construction keeps the invariant, adds one node per call and leaves the
nodes constructed before as they are. -/
theorem Inv.run (c0 : Nat) (cs : List Ctor) :
    ∀ σ σ1, Inv c0 σ → run cs σ = .ok σ1 →
      Inv c0 σ1 ∧ σ1.built.length = σ.built.length + cs.length ∧
        σ.built <+: σ1.built := by
  induction cs with
  | nil =>
    intro σ σ1 hinv h
    simp only [Sniper.run, Outcome.ok.injEq] at h
    subst h
    exact ⟨hinv, rfl, List.prefix_refl _⟩
  | cons c cs ih =>
    intro σ σ1 hinv h
    simp only [Sniper.run, Outcome.bind_eq_ok] at h
    obtain ⟨σ2, hc, hr⟩ := h
    obtain ⟨n, hb, _⟩ := construct_ok c σ σ2 hc
    obtain ⟨hi, hl, hp⟩ := ih σ2 σ1 (Inv.step c0 c σ σ2 hinv hc) hr
    refine ⟨hi, ?_, ?_⟩
    · rw [hl, hb, List.length_append, List.length_singleton, List.length_cons]
      omega
    · exact List.IsPrefix.trans (hb ▸ List.prefix_append _ _) hp

/-- Without wrap-around the operand relation goes down in id and stays among
the constructed nodes. -/
theorem refersTo_descends (c0 : Nat) (σ : State) (hinv : Inv c0 σ)
    (hwrap : c0 + σ.built.length ≤ idModulus) (a b : Symbol)
    (hab : Relation.TransGen Symbol.refersTo a b) :
    a ∈ σ.built → b ∈ σ.built ∧ b.currentID < a.currentID := by
  obtain ⟨_, h2, h3⟩ := hinv
  have single : ∀ x y : Symbol, x.refersTo y → x ∈ σ.built →
      y ∈ σ.built ∧ y.currentID < x.currentID := by
    intro x y hxy hx
    obtain ⟨j, hj⟩ := List.getElem?_of_mem hx
    obtain ⟨i, hi, hio⟩ := h3 j x hj y hxy
    have hjl : j < σ.built.length := by
      by_contra hnot
      rw [List.getElem?_eq_none (by omega)] at hj
      cases hj
    refine ⟨List.getElem?_mem hio, ?_⟩
    rw [h2 j x hj, h2 i y hio, Nat.mod_eq_of_lt (by omega), Nat.mod_eq_of_lt (by omega)]
    omega
  induction hab with
  | single h => exact single _ _ h
  | tail _ h ih =>
    intro ha
    obtain ⟨hb, hlt⟩ := ih ha
    obtain ⟨hc, hlt2⟩ := single _ _ h hb
    exact ⟨hc, by omega⟩

/-- A run from a counter value that is not a 32-bit number constructs
nothing when no wrap-around is allowed. -/
theorem run_init_inv (c0 : Nat) (cs : List Ctor) (σ : State)
    (hrun : run cs (.init c0) = .ok σ) (hwrap : c0 + cs.length ≤ idModulus) :
    (Inv c0 σ ∧ σ.built.length = cs.length) ∨ σ.built = [] := by
  rcases Nat.lt_or_ge c0 idModulus with hlt | hge
  · obtain ⟨hi, hl, _⟩ := Inv.run c0 cs _ _ (Inv.init c0 hlt) hrun
    left
    refine ⟨hi, ?_⟩
    simpa [State.init] using hl
  · right
    have hcs : cs = [] := List.length_eq_zero.mp (by omega)
    subst hcs
    simp only [Sniper.run, Outcome.ok.injEq] at hrun
    subst hrun
    rfl

/-- C10: when constructor calls run one after the other from counter value
`c0` and the counter does not wrap (`c0 + number of calls ≤ 2 ^ 32`), the
node at position `j` of the construction order has id `c0 + j`; hence a node
constructed later has a strictly greater id and no two nodes share an id. -/
theorem ids_strictly_increasing (c0 : Nat) (cs : List Ctor) (σ : State)
    (hrun : run cs (.init c0) = .ok σ) (hwrap : c0 + cs.length ≤ idModulus) :
    (∀ (j : Nat) (n : Symbol), σ.built[j]? = some n → n.currentID = c0 + j) ∧
    (∀ (i j : Nat) (a b : Symbol), i < j → σ.built[i]? = some a →
      σ.built[j]? = some b → a.currentID < b.currentID) ∧
    (σ.built.map Symbol.currentID).Nodup := by
  rcases run_init_inv c0 cs σ hrun hwrap with ⟨⟨_, h2, _⟩, hl⟩ | hnil
  · have hid : ∀ (j : Nat) (n : Symbol), σ.built[j]? = some n → n.currentID = c0 + j := by
      intro j n hj
      have hjl : j < σ.built.length := by
        by_contra hnot
        rw [List.getElem?_eq_none (by omega)] at hj
        cases hj
      rw [h2 j n hj, Nat.mod_eq_of_lt (by omega)]
    have hlt : ∀ (i j : Nat) (a b : Symbol), i < j → σ.built[i]? = some a →
        σ.built[j]? = some b → a.currentID < b.currentID := by
      intro i j a b hij ha hb
      rw [hid i a ha, hid j b hb]
      omega
    refine ⟨hid, hlt, ?_⟩
    rw [List.Nodup, List.pairwise_map, List.pairwise_iff_getElem]
    intro i j hi hj hij
    have := hlt i j _ _ hij (List.getElem?_eq_getElem hi) (List.getElem?_eq_getElem hj)
    omega
  · rw [hnil]
    refine ⟨?_, ?_, ?_⟩
    · intro j n hj; simp at hj
    · intro i j a b _ ha; simp at ha
    · simp

/-- C10 at three constructor calls from counter value 0: the ids are 0, 1
and 2. -/
theorem ids_strictly_increasing_witness :
    (sampleState.built.map Symbol.currentID).Nodup ∧
      sampleState.built.map Symbol.currentID = [0, 1, 2] :=
  ⟨(ids_strictly_increasing 0 sampleCalls sampleState rfl
      (by norm_num [idModulus, sampleCalls])).2.2, rfl⟩

/-- C9: when constructor calls run one after the other from counter value
`c0` and the counter does not wrap, every operand of a node was constructed
earlier and has a strictly smaller id than the node; no node is reachable
from itself along operand references; and a further constructor call leaves
the nodes constructed so far, operands included, as they are. -/
theorem node_graph_topological (c0 : Nat) (cs : List Ctor) (σ : State)
    (hrun : run cs (.init c0) = .ok σ) (hwrap : c0 + cs.length ≤ idModulus) :
    (∀ (j : Nat) (n : Symbol), σ.built[j]? = some n → ∀ o ∈ n.operands,
      o.currentID < n.currentID ∧ ∃ i : Nat, i < j ∧ σ.built[i]? = some o) ∧
    (∀ n ∈ σ.built, ¬ Relation.TransGen Symbol.refersTo n n) ∧
    (∀ (c : Ctor) (σ1 : State), construct c σ = .ok σ1 →
      ∃ n, σ1.built = σ.built ++ [n]) := by
  have hlast : ∀ (c : Ctor) (σ1 : State), construct c σ = .ok σ1 →
      ∃ n, σ1.built = σ.built ++ [n] := by
    intro c σ1 hc
    obtain ⟨n, hb, _⟩ := construct_ok c σ σ1 hc
    exact ⟨n, hb⟩
  rcases run_init_inv c0 cs σ hrun hwrap with ⟨hinv, hl⟩ | hnil
  · have hw : c0 + σ.built.length ≤ idModulus := by omega
    refine ⟨?_, ?_, hlast⟩
    · intro j n hj o ho
      refine ⟨?_, hinv.2.2 j n hj o ho⟩
      exact (refersTo_descends c0 σ hinv hw n o (Relation.TransGen.single ho)
        (List.getElem?_mem hj)).2
    · intro n hn hcyc
      have := (refersTo_descends c0 σ hinv hw n n hcyc hn).2
      omega
  · refine ⟨?_, ?_, hlast⟩
    · intro j n hj; simp [hnil] at hj
    · intro n hn; simp [hnil] at hn

/-- C9 at three constructor calls from counter value 0: the offset of the
PointerOffset node is the sum node, constructed before it and of smaller
id. -/
theorem node_graph_topological_witness :
    addNode.currentID < (Symbol.gepOp 2 gepA baseA addNode).currentID ∧
      ∃ i : Nat, i < 2 ∧ sampleState.built[i]? = some addNode :=
  (node_graph_topological 0 sampleCalls sampleState rfl
    (by norm_num [idModulus, sampleCalls])).1 2 (.gepOp 2 gepA baseA addNode) rfl
    addNode (by simp [Symbol.operands])

/-! ## The counter across builds -/

/-- C11 (counterexample): the same three constructor calls run twice in one
process.  The first build starts at counter value 0 and its nodes get ids 0,
1, 2; the counter is static, so the second build starts at 3 and its nodes get
ids 3, 4, 5: the ids depend on the nodes constructed before. -/
theorem ids_depend_on_earlier_builds :
    run sampleCalls (State.init 0) = .ok sampleState ∧
    run sampleCalls (State.init sampleState.ID) = .ok sampleStateAgain ∧
    sampleState.built.map Symbol.currentID = [0, 1, 2] ∧
    sampleStateAgain.built.map Symbol.currentID = [3, 4, 5] := by
  refine ⟨rfl, rfl, rfl, rfl⟩

/-- C11 (amended): the counter `Symbol::ID` is shared by every build of the
process.  When a build of `cs1` from counter value `c0` is followed by a build
of `cs2`, the node at position `j` of the second build gets the id
`(c0 + length cs1 + j) mod 2 ^ 32`: the ids are those of a build from counter
value `c0` shifted by the number of nodes constructed before. -/
theorem ids_shift_with_counter (c0 : Nat) (cs1 cs2 : List Ctor) (σ1 σ2 : State)
    (hc0 : c0 < idModulus)
    (h1 : run cs1 (State.init c0) = .ok σ1)
    (h2 : run cs2 (State.init σ1.ID) = .ok σ2) :
    σ1.ID = (c0 + cs1.length) % idModulus ∧
    σ2.built.length = cs2.length ∧
    ∀ (j : Nat) (n : Symbol), σ2.built[j]? = some n →
      n.currentID = (c0 + cs1.length + j) % idModulus := by
  obtain ⟨⟨hID, _, _⟩, hl1, _⟩ := Inv.run c0 cs1 _ _ (Inv.init c0 hc0) h1
  have hl1' : σ1.built.length = cs1.length := by simpa [State.init] using hl1
  have hlt : σ1.ID < idModulus := by
    rw [hID]
    exact Nat.mod_lt _ (by norm_num [idModulus])
  obtain ⟨⟨_, hids, _⟩, hl2, _⟩ := Inv.run σ1.ID cs2 _ _ (Inv.init σ1.ID hlt) h2
  refine ⟨by rw [hID, hl1'], by simpa [State.init] using hl2, ?_⟩
  intro j n hj
  rw [hids j n hj, hID, hl1']
  simp [Nat.add_mod]

/-- C11 (amended) at the two builds of the sample calls. -/
theorem ids_shift_with_counter_witness :
    sampleStateAgain.built[2]?.map Symbol.currentID = some ((0 + 3 + 2) % idModulus) := by
  have h := (ids_shift_with_counter 0 sampleCalls sampleCalls sampleState
    sampleStateAgain (by norm_num [idModulus]) rfl rfl).2.2 2 _ rfl
  exact congrArg some h

/-! ## Input nodes -/

/-- C12: `isInput` is true exactly for the nodes of class `InputSymbol`, which
have no operand nodes; for a node of any other class it is false. -/
theorem isInput_iff (s : Symbol) :
    (s.isInput = true ↔ ∃ (i : Nat) (v : Value), s = .input i v) ∧
    (s.isInput = true → s.operands = []) ∧
    ((∀ (i : Nat) (v : Value), s ≠ .input i v) → s.isInput = false) := by
  cases s <;> simp [Symbol.isInput, Symbol.operands]

/-- C12 at the input node of `%x` and at the cast node over `%b`. -/
theorem isInput_iff_witness :
    inX.operands = [] ∧ zextNode.isInput = false :=
  ⟨(isInput_iff inX).2.1 rfl, (isInput_iff zextNode).2.2 (by intro i v h; cases h)⟩

/-! ## Select nodes -/

/-- C18: each of the four select shapes whose value is a select instruction
converts to `mkIte(e1, e2, e3)`, `e1` the converted condition node, `e2` the
expression of the then-operand, `e3` that of the else-operand, in this order;
a symbolic operand is converted recursively, a concrete one is taken by
`getExprFromValue`. -/
theorem selectOp_convertToExpr (id : Nat) (v : Value) (s1 : Symbol) (σ σ1 : Alloc)
    (e1 : ExprPtr) (hS : v.isaSelectInst = true)
    (h1 : s1.convertToExpr σ = .ok (e1, σ1)) :
    (∀ (s2 s3 : Symbol) (e2 e3 : ExprPtr) (σ2 σ3 : Alloc),
        s2.convertToExpr σ1 = .ok (e2, σ2) → s3.convertToExpr σ2 = .ok (e3, σ3) →
        Symbol.convertToExpr (.ssSelectOp id v s1 s2 s3) σ
            = .ok (Expression.mkIte e1 e2 e3 σ3) ∧
          (Expression.mkIte e1 e2 e3 σ3).1.term = .ite e1.term e2.term e3.term) ∧
    (∀ (v2 : Value) (s3 : Symbol) (e3 : ExprPtr) (σ3 : Alloc),
        s3.convertToExpr (Expression.getExprFromValue v2 σ1).2 = .ok (e3, σ3) →
        Symbol.convertToExpr (.vsSelectOp id v s1 v2 s3) σ
            = .ok (Expression.mkIte e1 (Expression.getExprFromValue v2 σ1).1 e3 σ3) ∧
          (Expression.mkIte e1 (Expression.getExprFromValue v2 σ1).1 e3 σ3).1.term
            = .ite e1.term (.ofValue v2) e3.term) ∧
    (∀ (s2 : Symbol) (v3 : Value) (e2 : ExprPtr) (σ2 : Alloc),
        s2.convertToExpr σ1 = .ok (e2, σ2) →
        Symbol.convertToExpr (.svSelectOp id v s1 s2 v3) σ
            = .ok (Expression.mkIte e1 e2 (Expression.getExprFromValue v3 σ2).1
                (Expression.getExprFromValue v3 σ2).2) ∧
          (Expression.mkIte e1 e2 (Expression.getExprFromValue v3 σ2).1
                (Expression.getExprFromValue v3 σ2).2).1.term
            = .ite e1.term e2.term (.ofValue v3)) ∧
    (∀ (v2 v3 : Value),
        Symbol.convertToExpr (.vvSelectOp id v s1 v2 v3) σ
            = .ok (Expression.mkIte e1 (Expression.getExprFromValue v2 σ1).1
                (Expression.getExprFromValue v3 (Expression.getExprFromValue v2 σ1).2).1
                (Expression.getExprFromValue v3 (Expression.getExprFromValue v2 σ1).2).2) ∧
          (Expression.mkIte e1 (Expression.getExprFromValue v2 σ1).1
                (Expression.getExprFromValue v3 (Expression.getExprFromValue v2 σ1).2).1
                (Expression.getExprFromValue v3 (Expression.getExprFromValue v2 σ1).2).2).1.term
            = .ite e1.term (.ofValue v2) (.ofValue v3)) := by
  refine ⟨?_, ?_, ?_, ?_⟩
  · intro s2 s3 e2 e3 σ2 σ3 h2 h3
    refine ⟨?_, rfl⟩
    simp only [Symbol.convertToExpr, hS, assert, if_true, h1, h2, h3, Outcome.bind_ok]
  · intro v2 s3 e3 σ3 h3
    refine ⟨?_, rfl⟩
    simp only [Symbol.convertToExpr, hS, assert, if_true, h1, h3, Outcome.bind_ok]
  · intro s2 v3 e2 σ2 h2
    refine ⟨?_, rfl⟩
    simp only [Symbol.convertToExpr, hS, assert, if_true, h1, h2, Outcome.bind_ok]
  · intro v2 v3
    refine ⟨?_, rfl⟩
    simp only [Symbol.convertToExpr, hS, assert, if_true, h1, Outcome.bind_ok]

/-- C18 at `select i1 %b, i32 %x, i32 0`, the else-value concrete. -/
theorem selectOp_convertToExpr_witness :
    Symbol.convertToExpr (.svSelectOp 2 selB inB inX (.constantInt (.integer 32) 0)) 0
      = .ok (⟨3, .ite (.ofSymbol argB) (.ofSymbol argX)
          (.ofValue (.constantInt (.integer 32) 0))⟩, 4) :=
  ((selectOp_convertToExpr 2 selB inB 0 1 ⟨0, .ofSymbol argB⟩ rfl rfl).2.2.1
    inX (.constantInt (.integer 32) 0) ⟨1, .ofSymbol argX⟩ 2 rfl).1

/-! ## The two casts composed -/

/-- The conversion of a cast node on the branch `i1 -> i32`. -/
theorem Symbol.castOp_widen (id : Nat) (v I v1 : Value) (s : Symbol) (σ σ1 : Alloc)
    (e1 : ExprPtr)
    (hI : v.dynCastInstruction = some I) (hop : I.getOperand 0 = some v1)
    (h1 : v1.getType.isIntegerTy 1 = true) (h32 : v.getType.isIntegerTy 32 = true)
    (hs : s.convertToExpr (Expression.mkSInt32Num 0 (Expression.mkSInt32Num 1 σ).2).2
      = .ok (e1, σ1)) :
    Symbol.convertToExpr (.castOp id v s) σ
      = .ok (Expression.mkIte e1 (Expression.mkSInt32Num 1 σ).1
          (Expression.mkSInt32Num 0 (Expression.mkSInt32Num 1 σ).2).1 σ1) := by
  simp only [Symbol.convertToExpr, hI, hop, h1, h32, Bool.and_self, if_true, hs,
    Outcome.bind_ok]

/-- The conversion of a cast node on the branch `i32 -> i1`. -/
theorem Symbol.castOp_narrow (id : Nat) (v I v1 : Value) (s : Symbol) (σ σ1 : Alloc)
    (e1 : ExprPtr)
    (hI : v.dynCastInstruction = some I) (hop : I.getOperand 0 = some v1)
    (h32 : v1.getType.isIntegerTy 32 = true) (h1 : v.getType.isIntegerTy 1 = true)
    (hs : s.convertToExpr (Expression.mkSInt32Num 0 σ).2 = .ok (e1, σ1)) :
    Symbol.convertToExpr (.castOp id v s) σ
      = .ok (Expression.mkDiseq e1 (Expression.mkSInt32Num 0 σ).1 σ1) := by
  have hne : (v1.getType.isIntegerTy 1 && v.getType.isIntegerTy 32) = false := by
    cases hv : v.getType <;> simp_all [Ty.isIntegerTy]
  simp only [Symbol.convertToExpr, hI, hop, h1, h32, hne, Bool.and_self, if_true, hs,
    Outcome.bind_ok, Bool.false_eq_true, if_false]

/-- The disequality with `0` of `ite(t, 1, 0)` has the truth value of `t`. -/
theorem Expr.eval_narrow_widen (t : Expr) (M : Model) (x : Bool)
    (hx : t.eval M = some (.bool x)) :
    (Expr.diseq (.ite t (.sint32 1) (.sint32 0)) (.sint32 0)).eval M
      = some (.bool x) := by
  cases x <;> simp [Expr.eval, hx]

/-- C19: the narrowing encoding applied to the widening encoding of any term
`t`, `(ite(t, 1, 0) ≠ 0)`, has in every model the truth value of `t` when `t`
has one; and this is the term the narrowing cast node over the widening cast
node of a node `s` converts to, `t` being the expression of `s`. -/
theorem cast_roundtrip (i j : Nat) (v I v1 w J w1 : Value) (s : Symbol) (σ σ1 : Alloc)
    (b : ExprPtr)
    (hI : v.dynCastInstruction = some I) (hop : I.getOperand 0 = some v1)
    (h32 : v1.getType.isIntegerTy 32 = true) (h1 : v.getType.isIntegerTy 1 = true)
    (hJ : w.dynCastInstruction = some J) (hopw : J.getOperand 0 = some w1)
    (hw1 : w1.getType.isIntegerTy 1 = true) (hw32 : w.getType.isIntegerTy 32 = true)
    (hs : s.convertToExpr (σ + 3) = .ok (b, σ1)) :
    (∀ (t : Expr) (M : Model) (x : Bool), t.eval M = some (.bool x) →
      (Expr.diseq (.ite t (.sint32 1) (.sint32 0)) (.sint32 0)).eval M
        = some (.bool x)) ∧
    ∃ r σ2, Symbol.convertToExpr (.castOp i v (.castOp j w s)) σ = .ok (r, σ2) ∧
      r.term = .diseq (.ite b.term (.sint32 1) (.sint32 0)) (.sint32 0) ∧
      ∀ (M : Model) (x : Bool), b.term.eval M = some (.bool x) →
        r.term.eval M = some (.bool x) := by
  have hs' : s.convertToExpr
      (Expression.mkSInt32Num 0 (Expression.mkSInt32Num 1 (Expression.mkSInt32Num 0 σ).2).2).2
        = .ok (b, σ1) := hs
  have hin := Symbol.castOp_widen j w J w1 s (Expression.mkSInt32Num 0 σ).2 σ1 b
    hJ hopw hw1 hw32 hs'
  have hout := Symbol.castOp_narrow i v I v1 (.castOp j w s) σ _ _ hI hop h32 h1 hin
  refine ⟨Expr.eval_narrow_widen, _, _, hout, rfl, ?_⟩
  intro M x hx
  exact Expr.eval_narrow_widen b.term M x hx

/-- C19 at `trunc (zext i1 %b to i32) to i1` over the input node of `%b`. -/
theorem cast_roundtrip_witness :
    ∃ r σ2, Symbol.convertToExpr (.castOp 2 truncZ zextNode) 0 = .ok (r, σ2) ∧
      r.term = .diseq (.ite (.ofSymbol argB) (.sint32 1) (.sint32 0)) (.sint32 0) := by
  obtain ⟨_, r, σ2, h, ht, _⟩ := cast_roundtrip 2 1 truncZ truncZ zextB zextB zextB argB inB 0 4
    ⟨3, .ofSymbol argB⟩ rfl rfl rfl rfl rfl rfl rfl rfl rfl
  exact ⟨r, σ2, h, ht⟩

/-! ## Conversion does not depend on ids -/

/-- A node that converts to `t` at one allocation count does so at every
count. -/
theorem Symbol.convertsTo_at (s : Symbol) (t : Expr) (h : s.convertsTo t) :
    ∃ k, ∀ σ, s.convertToExpr σ = .ok (⟨σ + k, t⟩, σ + k + 1) := by
  obtain ⟨σ0, e, σ1, hc, ht⟩ := h
  obtain ⟨k, t1, H⟩ := Symbol.convertToExpr_uniform s σ0 _ hc
  have h0 := H σ0
  rw [hc] at h0
  simp only [Outcome.ok.injEq, Prod.mk.injEq] at h0
  obtain ⟨he, _⟩ := h0
  subst he
  subst ht
  exact ⟨k, H⟩

/-- C20: conversion does not look at node ids.  Two nodes of the same class
built from the same value, with the same concrete operands and with operand
nodes that convert to structurally equal expressions, convert at any two
allocation counts to structurally equal expressions, or stop the same way;
and two successful conversions of one node give structurally equal
expressions. -/
theorem convertToExpr_id_independent :
    (∀ a b : Symbol, Symbol.SameBuild a b →
      ∀ σ1 σ2 : Alloc, a.termOf σ1 = b.termOf σ2) ∧
    (∀ (a : Symbol) (σ1 σ2 τ1 τ2 : Alloc) (e1 e2 : ExprPtr),
      a.convertToExpr σ1 = .ok (e1, τ1) → a.convertToExpr σ2 = .ok (e2, τ2) →
      e1.term = e2.term) := by
  constructor
  · intro a b h σ1 σ2
    cases h with
    | symbol i j v => rfl
    | input i j v => rfl
    | selectOp i j v s1 t1 _ => rfl
    | ssBinaryOp i j v s1 s2 t1 t2 h1 h2 =>
      obtain ⟨u1, ha1, hb1⟩ := h1
      obtain ⟨u2, ha2, hb2⟩ := h2
      obtain ⟨_, A1⟩ := Symbol.convertsTo_at _ _ ha1
      obtain ⟨_, B1⟩ := Symbol.convertsTo_at _ _ hb1
      obtain ⟨_, A2⟩ := Symbol.convertsTo_at _ _ ha2
      obtain ⟨_, B2⟩ := Symbol.convertsTo_at _ _ hb2
      cases hI : v.dynCastInstruction <;>
        simp [Symbol.termOf, Symbol.convertToExpr, hI, A1, B1, A2, B2, Outcome.bind,
          Expression.mkOp, Expression.build]
    | svBinaryOp i j v v2 s1 t1 h1 =>
      obtain ⟨u1, ha1, hb1⟩ := h1
      obtain ⟨_, A1⟩ := Symbol.convertsTo_at _ _ ha1
      obtain ⟨_, B1⟩ := Symbol.convertsTo_at _ _ hb1
      cases hI : v.dynCastInstruction <;>
        simp [Symbol.termOf, Symbol.convertToExpr, hI, A1, B1, Outcome.bind,
          Expression.mkOp, Expression.getExprFromValue, Expression.build]
    | vsBinaryOp i j v v1 s2 t2 h2 =>
      obtain ⟨u2, ha2, hb2⟩ := h2
      obtain ⟨_, A2⟩ := Symbol.convertsTo_at _ _ ha2
      obtain ⟨_, B2⟩ := Symbol.convertsTo_at _ _ hb2
      cases hI : v.dynCastInstruction <;>
        simp [Symbol.termOf, Symbol.convertToExpr, hI, A2, B2, Outcome.bind,
          Expression.mkOp, Expression.getExprFromValue, Expression.build]
    | ssSelectOp i j v s1 s2 s3 t1 t2 t3 h1 h2 h3 =>
      obtain ⟨u1, ha1, hb1⟩ := h1
      obtain ⟨u2, ha2, hb2⟩ := h2
      obtain ⟨u3, ha3, hb3⟩ := h3
      obtain ⟨_, A1⟩ := Symbol.convertsTo_at _ _ ha1
      obtain ⟨_, B1⟩ := Symbol.convertsTo_at _ _ hb1
      obtain ⟨_, A2⟩ := Symbol.convertsTo_at _ _ ha2
      obtain ⟨_, B2⟩ := Symbol.convertsTo_at _ _ hb2
      obtain ⟨_, A3⟩ := Symbol.convertsTo_at _ _ ha3
      obtain ⟨_, B3⟩ := Symbol.convertsTo_at _ _ hb3
      cases hS : v.isaSelectInst <;>
        simp [Symbol.termOf, Symbol.convertToExpr, hS, assert, A1, B1, A2, B2, A3, B3,
          Outcome.bind, Expression.mkIte, Expression.build]
    | vsSelectOp i j v v2 s1 s3 t1 t3 h1 h3 =>
      obtain ⟨u1, ha1, hb1⟩ := h1
      obtain ⟨u3, ha3, hb3⟩ := h3
      obtain ⟨_, A1⟩ := Symbol.convertsTo_at _ _ ha1
      obtain ⟨_, B1⟩ := Symbol.convertsTo_at _ _ hb1
      obtain ⟨_, A3⟩ := Symbol.convertsTo_at _ _ ha3
      obtain ⟨_, B3⟩ := Symbol.convertsTo_at _ _ hb3
      cases hS : v.isaSelectInst <;>
        simp [Symbol.termOf, Symbol.convertToExpr, hS, assert, A1, B1, A3, B3,
          Outcome.bind, Expression.mkIte, Expression.getExprFromValue, Expression.build]
    | svSelectOp i j v v3 s1 s2 t1 t2 h1 h2 =>
      obtain ⟨u1, ha1, hb1⟩ := h1
      obtain ⟨u2, ha2, hb2⟩ := h2
      obtain ⟨_, A1⟩ := Symbol.convertsTo_at _ _ ha1
      obtain ⟨_, B1⟩ := Symbol.convertsTo_at _ _ hb1
      obtain ⟨_, A2⟩ := Symbol.convertsTo_at _ _ ha2
      obtain ⟨_, B2⟩ := Symbol.convertsTo_at _ _ hb2
      cases hS : v.isaSelectInst <;>
        simp [Symbol.termOf, Symbol.convertToExpr, hS, assert, A1, B1, A2, B2,
          Outcome.bind, Expression.mkIte, Expression.getExprFromValue, Expression.build]
    | vvSelectOp i j v v2 v3 s1 t1 h1 =>
      obtain ⟨u1, ha1, hb1⟩ := h1
      obtain ⟨_, A1⟩ := Symbol.convertsTo_at _ _ ha1
      obtain ⟨_, B1⟩ := Symbol.convertsTo_at _ _ hb1
      cases hS : v.isaSelectInst <;>
        simp [Symbol.termOf, Symbol.convertToExpr, hS, assert, A1, B1,
          Outcome.bind, Expression.mkIte, Expression.getExprFromValue, Expression.build]
    | castOp i j v s1 t1 h1 =>
      obtain ⟨u1, ha1, hb1⟩ := h1
      obtain ⟨_, A1⟩ := Symbol.convertsTo_at _ _ ha1
      obtain ⟨_, B1⟩ := Symbol.convertsTo_at _ _ hb1
      cases hI : v.dynCastInstruction with
      | none => simp [Symbol.termOf, Symbol.convertToExpr, hI, Outcome.bind]
      | some I =>
        cases hop : I.getOperand 0 with
        | none => simp [Symbol.termOf, Symbol.convertToExpr, hI, hop, Outcome.bind]
        | some v1 =>
          cases hw : (v1.getType.isIntegerTy 1 && v.getType.isIntegerTy 32) <;>
          cases hn : (v1.getType.isIntegerTy 32 && v.getType.isIntegerTy 1) <;>
            simp [Symbol.termOf, Symbol.convertToExpr, hI, hop, hw, hn, assert, A1, B1,
              Outcome.bind, Expression.mkIte, Expression.mkDiseq,
              Expression.mkSInt32Num, Expression.build]
    | gepOp i j ptr a s1 t1 h1 =>
      obtain ⟨u1, ha1, hb1⟩ := h1
      obtain ⟨_, A1⟩ := Symbol.convertsTo_at _ _ ha1
      obtain ⟨_, B1⟩ := Symbol.convertsTo_at _ _ hb1
      simp [Symbol.termOf, Symbol.convertToExpr, A1, B1, Outcome.bind,
        Expression.mkApp, Expression.getExprFromValue, Expression.build]
  · intro a σ1 σ2 τ1 τ2 e1 e2 h1 h2
    obtain ⟨k, t, H⟩ := Symbol.convertToExpr_uniform a σ1 _ h1
    have H1 := H σ1
    have H2 := H σ2
    rw [h1] at H1
    rw [h2] at H2
    simp only [Outcome.ok.injEq, Prod.mk.injEq] at H1 H2
    rw [H1.1, H2.1]

/-- C20 at the widening cast of `%b` built at two counter states, once with
id 1 over the input node with id 0, once with id 8 over the input node with
id 7. -/
theorem convertToExpr_id_independent_witness :
    Symbol.termOf (.castOp 1 zextB inB) 0
      = Symbol.termOf (.castOp 8 zextB (.input 7 argB)) 5 :=
  convertToExpr_id_independent.1 (.castOp 1 zextB inB) (.castOp 8 zextB (.input 7 argB))
    (.castOp 1 8 zextB inB (.input 7 argB)
      ⟨.ofSymbol argB, ⟨0, ⟨0, .ofSymbol argB⟩, 1, rfl, rfl⟩,
        ⟨0, ⟨0, .ofSymbol argB⟩, 1, rfl, rfl⟩⟩) 0 5

/-! ## Fault localization: instrumentation -/

namespace FaultLocalization

theorem evalInstrumented_allTrue {α : Type} (TF : List (Transition α)) (x : α) :
    ∀ k, evalInstrumented (instrumentFrom k TF) (fun _ => true) x = evalTF TF x := by
  induction TF with
  | nil => intro k; rfl
  | cons c cs ih =>
    intro k
    have hhead : Guarded.holds ⟨if c.locatable then some k else none, c.holds⟩
        (fun _ => true) x = c.holds x := by
      cases hl : c.locatable <;> simp [Guarded.holds]
    show (Guarded.holds ⟨if c.locatable then some k else none, c.holds⟩ (fun _ => true) x
        && evalInstrumented (instrumentFrom (k + 1) cs) (fun _ => true) x)
      = (c.holds x && evalTF cs x)
    rw [hhead, ih]

theorem relaxing_nil : Problem.relaxing [] = fun _ => true := by
  funext a
  simp [Problem.relaxing]

/-- C15: for every transition formula, pre- and postcondition (and every
search space of the solver), the instrumented formula with all activation
variables asserted true has in every state the value of the original TF, and
is satisfiable together with the pre- and postcondition if and only if the
original TF is. -/
theorem instrumentation_sound {α : Type} (P : Problem α) :
    (∀ x : α, evalInstrumented (instrument P.TF) (fun _ => true) x = evalTF P.TF x) ∧
    (P.satAllTrue = true ↔ P.satOriginal = true) ∧
    P.satRelaxing [] = P.satAllTrue := by
  have hpt : ∀ x : α,
      evalInstrumented (instrument P.TF) (fun _ => true) x = evalTF P.TF x :=
    fun x => evalInstrumented_allTrue P.TF x 0
  refine ⟨hpt, ?_, ?_⟩
  · simp only [Problem.satAllTrue, Problem.satOriginal, hpt]
  · simp only [Problem.satRelaxing, Problem.satAllTrue, relaxing_nil]

/-! ## Fault localization: sets of activation variables -/

theorem subsets_eq (l : List Nat) : subsets l = l.sublists' := by
  induction l with
  | nil => rfl
  | cons a l ih => simp [subsets, ih, List.sublists'_cons]

theorem mem_subsets (s l : List Nat) : s ∈ subsets l ↔ s.Sublist l := by
  rw [subsets_eq, List.mem_sublists']

theorem length_subsets (l : List Nat) : (subsets l).length = 2 ^ l.length := by
  rw [subsets_eq, List.length_sublists']

theorem nodup_subsets (l : List Nat) (h : l.Nodup) : (subsets l).Nodup := by
  rw [subsets_eq]
  exact List.nodup_sublists'.mpr h

/-- A sublist of a list without repetition is the list filtered by membership
in the sublist. -/
theorem filter_mem_of_sublist (l : List Nat) (hl : l.Nodup) :
    ∀ s : List Nat, s.Sublist l → l.filter (fun x => decide (x ∈ s)) = s := by
  induction l with
  | nil =>
    intro s hs
    rw [List.sublist_nil.mp hs]
    rfl
  | cons a l ih =>
    intro s hs
    rw [List.nodup_cons] at hl
    cases hs with
    | cons _ h =>
      have ha : a ∉ s := fun hmem => hl.1 (h.subset hmem)
      simp only [List.filter_cons, ha, decide_False, Bool.false_eq_true, if_false]
      exact ih hl.2 s h
    | cons₂ _ h =>
      rename_i s1
      simp only [List.filter_cons, List.mem_cons, true_or, decide_True, if_true,
        List.cons.injEq, true_and]
      rw [← ih hl.2 s1 h]
      apply List.filter_congr
      intro x hx
      have hxa : x ≠ a := fun hxa => hl.1 (hxa ▸ hx)
      simp [hxa, ih hl.2 s1 h]

/-- Two sublists of a list without repetition with the same members are
equal. -/
theorem sublist_ext (l s t : List Nat) (hl : l.Nodup) (hs : s.Sublist l)
    (ht : t.Sublist l) (h : ∀ x, x ∈ s ↔ x ∈ t) : s = t := by
  rw [← filter_mem_of_sublist l hl s hs, ← filter_mem_of_sublist l hl t ht]
  apply List.filter_congr
  intro x _
  simp [h x]

/-- Among sublists of a list without repetition, inclusion of members is the
sublist relation. -/
theorem sublist_of_subset (l s t : List Nat) (hl : l.Nodup) (hs : s.Sublist l)
    (ht : t.Sublist l) (h : ∀ x, x ∈ s → x ∈ t) : s.Sublist t := by
  have hst : t.filter (fun x => decide (x ∈ s)) = s := by
    conv_lhs => rw [← filter_mem_of_sublist l hl t ht]
    rw [List.filter_filter]
    conv_rhs => rw [← filter_mem_of_sublist l hl s hs]
    apply List.filter_congr
    intro x _
    by_cases hx : x ∈ s <;> simp [hx, h x]
  rw [← hst]
  exact List.filter_sublist _

theorem activationVariables_cons {α : Type} (k : Nat) (c : Transition α)
    (cs : List (Transition α)) :
    activationVariables (instrumentFrom k (c :: cs))
      = if c.locatable then k :: activationVariables (instrumentFrom (k + 1) cs)
        else activationVariables (instrumentFrom (k + 1) cs) := by
  obtain ⟨l, f⟩ := c
  cases l <;> rfl

theorem activationVariables_ge {α : Type} (TF : List (Transition α)) :
    ∀ k, ∀ a ∈ activationVariables (instrumentFrom k TF), k ≤ a := by
  induction TF with
  | nil => intro k a h; simp [activationVariables, instrumentFrom] at h
  | cons c cs ih =>
    intro k a h
    have ih1 := ih (k + 1)
    rw [activationVariables_cons] at h
    split at h
    · rw [List.mem_cons] at h
      rcases h with h | h
      · omega
      · have := ih1 a h
        omega
    · have := ih1 a h
      omega

/-- The activation variables of an instrumentation are fresh: no two
conjuncts share one. -/
theorem activationVariables_nodup {α : Type} (TF : List (Transition α)) :
    ∀ k, (activationVariables (instrumentFrom k TF)).Nodup := by
  induction TF with
  | nil => intro k; simp [activationVariables, instrumentFrom]
  | cons c cs ih =>
    intro k
    have ih1 := ih (k + 1)
    rw [activationVariables_cons]
    split
    · rw [List.nodup_cons]
      refine ⟨fun hk => ?_, ih1⟩
      have := activationVariables_ge cs (k + 1) k hk
      omega
    · exact ih1

theorem Problem.AV_nodup {α : Type} (P : Problem α) : P.AV.Nodup :=
  activationVariables_nodup P.TF 0

/-! ## Fault localization: the diagnosis engine -/

/-- Relaxing more activation variables keeps the formula satisfiable. -/
theorem Problem.satRelaxing_mono {α : Type} (P : Problem α) (C D : List Nat)
    (h : ∀ x, x ∈ C → x ∈ D) (hC : P.satRelaxing C = true) :
    P.satRelaxing D = true := by
  simp only [Problem.satRelaxing, satisfiable, List.any_eq_true, Bool.and_eq_true] at hC ⊢
  obtain ⟨x, hx, ⟨hpre, hpost⟩, hev⟩ := hC
  refine ⟨x, hx, ⟨hpre, hpost⟩, ?_⟩
  simp only [evalInstrumented, List.all_eq_true] at hev ⊢
  intro g hg
  have hgc := hev g hg
  unfold Guarded.holds at hgc ⊢
  cases hav : g.av with
  | none => simpa [hav] using hgc
  | some a =>
    simp only [hav, Problem.relaxing, Bool.not_not, Bool.or_eq_true] at hgc ⊢
    rcases hgc with hgc | hgc
    · left
      have hmem : a ∈ C := by simpa using hgc
      simpa using h a hmem
    · right
      exact hgc

/-- The minimization loop returns a correction subset inside the candidate
from which no member can be dropped. -/
theorem minimizeLoop_spec {α : Type} (P : Problem α) :
    ∀ (k : Nat) (C : List Nat), C.length ≤ k → P.satRelaxing C = true →
      (minimizeLoop P k C).Sublist C ∧ P.satRelaxing (minimizeLoop P k C) = true ∧
      ∀ m ∈ minimizeLoop P k C,
        P.satRelaxing ((minimizeLoop P k C).filter fun a => a != m) = false := by
  intro k
  induction k with
  | zero =>
    intro C hlen hsat
    have hC : C = [] := List.length_eq_zero.mp (by omega)
    subst hC
    refine ⟨List.Sublist.refl _, hsat, ?_⟩
    intro m hm
    simp [minimizeLoop] at hm
  | succ k ih =>
    intro C hlen hsat
    cases hf : C.find? (fun m => P.satRelaxing (C.filter fun a => a != m)) with
    | none =>
      have hres : minimizeLoop P (k + 1) C = C := by
        simp only [minimizeLoop, hf]
      rw [hres]
      refine ⟨List.Sublist.refl _, hsat, ?_⟩
      intro m hm
      have := List.find?_eq_none.mp hf m hm
      simpa using this
    | some m =>
      have hres : minimizeLoop P (k + 1) C
          = minimizeLoop P k (C.filter fun a => a != m) := by
        simp only [minimizeLoop, hf]
      rw [hres]
      have hm : m ∈ C := List.mem_of_find?_eq_some hf
      have hp : P.satRelaxing (C.filter fun a => a != m) = true :=
        List.find?_some (p := fun m => P.satRelaxing (C.filter fun a => a != m)) hf
      have hlt : (C.filter fun a => a != m).length < C.length :=
        List.length_filter_lt_length_iff_exists.mpr ⟨m, hm, by simp⟩
      obtain ⟨h1, h2, h3⟩ := ih (C.filter fun a => a != m) (by omega) hp
      exact ⟨h1.trans (List.filter_sublist _), h2, h3⟩

theorem minimize_spec {α : Type} (P : Problem α) (C : List Nat)
    (hsat : P.satRelaxing C = true) :
    (minimize P C).Sublist C ∧ P.satRelaxing (minimize P C) = true ∧
      ∀ m ∈ minimize P C,
        P.satRelaxing ((minimize P C).filter fun a => a != m) = false :=
  minimizeLoop_spec P C.length C (Nat.le_refl _) hsat

theorem blocked_eq_true (found : List (List Nat)) (C : List Nat) :
    blocked found C = true ↔ ∃ B ∈ found, ∀ b ∈ B, b ∈ C := by
  simp [blocked, List.any_eq_true, List.all_eq_true]

theorem mem_candidates {α : Type} (P : Problem α) (found : List (List Nat))
    (C : List Nat) :
    C ∈ candidates P found ↔
      C.Sublist P.AV ∧ P.satRelaxing C = true ∧ blocked found C = false := by
  simp [candidates, mem_subsets, and_assoc]

theorem solve_some {α : Type} (S : Solver) (hS : S.Sound) (P : Problem α)
    (found : List (List Nat)) (C : List Nat) (h : solve S P found = some C) :
    C.Sublist P.AV ∧ P.satRelaxing C = true ∧ blocked found C = false :=
  (mem_candidates P found C).mp ((hS _).1 C h)

theorem solve_none {α : Type} (S : Solver) (hS : S.Sound) (P : Problem α)
    (found : List (List Nat)) (h : solve S P found = none) (C : List Nat)
    (hC : C.Sublist P.AV) (hsat : P.satRelaxing C = true) :
    blocked found C = true := by
  have hnil := (hS _).2 h
  by_contra hb
  have hmem : C ∈ candidates P found :=
    (mem_candidates P found C).mpr ⟨hC, hsat, by simpa using hb⟩
  rw [hnil] at hmem
  cases hmem

/-- One round of the loop keeps the invariant. -/
theorem Recorded.round {α : Type} (S : Solver) (hS : S.Sound) (P : Problem α)
    (found : List (List Nat)) (C : List Nat) (hrec : Recorded P found)
    (h : solve S P found = some C) : Recorded P (found ++ [minimize P C]) := by
  obtain ⟨hC, hsat, hnb⟩ := solve_some S hS P found C h
  obtain ⟨hsub, hmsat, hmin⟩ := minimize_spec P C hsat
  obtain ⟨hall, hnd⟩ := hrec
  refine ⟨?_, ?_⟩
  · intro B hB
    rw [List.mem_append, List.mem_singleton] at hB
    rcases hB with hB | hB
    · exact hall B hB
    · subst hB
      exact ⟨hsub.trans hC, hmsat, hmin⟩
  · rw [List.nodup_append]
    refine ⟨hnd, List.nodup_singleton _, ?_⟩
    intro B hB hB2
    rw [List.mem_singleton] at hB2
    subst hB2
    have hb : blocked found C = true :=
      (blocked_eq_true found C).mpr ⟨_, hB, fun b hb => hsub.subset hb⟩
    rw [hnb] at hb
    cases hb

/-- The recorded sets are among the subsets of the activation variables, so
there are at most `2 ^ n` of them. -/
theorem Recorded.length_le {α : Type} (P : Problem α) (found : List (List Nat))
    (hrec : Recorded P found) : found.length ≤ 2 ^ P.AV.length := by
  rw [← length_subsets]
  apply List.Subperm.length_le
  apply List.Nodup.subperm hrec.2
  intro B hB
  exact (mem_subsets B P.AV).mpr (hrec.1 B hB).1

/-- When the loop stops it has kept the invariant and the solver has
reported UNSAT under the recorded blocking constraints. -/
theorem enumerate_spec {α : Type} (S : Solver) (hS : S.Sound) (P : Problem α) :
    ∀ (k : Nat) (found R : List (List Nat)), Recorded P found →
      enumerate S P k found = some R → Recorded P R ∧ solve S P R = none := by
  intro k
  induction k with
  | zero => intro found R _ h; simp [enumerate] at h
  | succ k ih =>
    intro found R hrec h
    cases hs : solve S P found with
    | none =>
      simp only [enumerate, hs, Option.some.injEq] at h
      subst h
      exact ⟨hrec, hs⟩
    | some C =>
      simp only [enumerate, hs] at h
      exact ih _ R (Recorded.round S hS P found C hrec hs) h

/-- The loop stops within the rounds it is given. -/
theorem enumerate_total {α : Type} (S : Solver) (hS : S.Sound) (P : Problem α) :
    ∀ (k : Nat) (found : List (List Nat)), Recorded P found →
      2 ^ P.AV.length < found.length + k → ∃ R, enumerate S P k found = some R := by
  intro k
  induction k with
  | zero =>
    intro found hrec hlt
    have := Recorded.length_le P found hrec
    omega
  | succ k ih =>
    intro found hrec hlt
    cases hs : solve S P found with
    | none => exact ⟨found, by simp only [enumerate, hs]⟩
    | some C =>
      obtain ⟨R, hR⟩ := ih (found ++ [minimize P C])
        (Recorded.round S hS P found C hrec hs)
        (by rw [List.length_append, List.length_singleton]; omega)
      exact ⟨R, by simp only [enumerate, hs, hR]⟩

theorem Recorded.nil {α : Type} (P : Problem α) : Recorded P [] := by
  refine ⟨?_, List.nodup_nil⟩
  intro B hB
  cases hB

/-- The loop run from no blocking constraint returns, with the invariant and
UNSAT under the recorded blocking constraints. -/
theorem enumerate_rounds {α : Type} (S : Solver) (hS : S.Sound) (P : Problem α) :
    ∃ R, enumerate S P (rounds P) [] = some R ∧ Recorded P R ∧ solve S P R = none := by
  obtain ⟨R, hR⟩ := enumerate_total S hS P (rounds P) [] (Recorded.nil P)
    (by simp [rounds])
  exact ⟨R, hR, enumerate_spec S hS P _ _ R (Recorded.nil P) hR⟩

theorem firstModel_sound : firstModel.Sound := by
  intro l
  cases l with
  | nil => exact ⟨fun c h => by simp [firstModel] at h, fun _ => rfl⟩
  | cons a l =>
    refine ⟨fun c h => ?_, fun h => by simp [firstModel] at h⟩
    simp only [firstModel, List.head?_cons, Option.some.injEq] at h
    subst h
    exact List.mem_cons_self _ _

/-- What `allMinMCS` returns: nothing when the formula is satisfiable with all
activation variables true, the result of the loop otherwise. -/
theorem allMinMCS_spec {α : Type} (S : Solver) (hS : S.Sound) (P : Problem α) :
    ∃ R, allMinMCS S P = some R ∧ Recorded P R ∧
      (P.satRelaxing [] = false →
        enumerate S P (rounds P) [] = some R ∧ solve S P R = none) := by
  cases h0 : P.satRelaxing []
  · obtain ⟨R, hR, hrec, hnone⟩ := enumerate_rounds S hS P
    refine ⟨R, ?_, hrec, fun _ => ⟨hR, hnone⟩⟩
    simp only [allMinMCS, h0, Bool.false_eq_true, if_false, hR]
  · refine ⟨[], ?_, Recorded.nil P, fun h => by cases h⟩
    simp only [allMinMCS, h0, if_true]

/-- C13: `allMinMCS` returns, and for every correction subset `C` it reports,
relaxing exactly `C` makes the instrumented formula with pre- and
postcondition satisfiable, and reinstating any single activation variable of
`C` makes it unsatisfiable again; the same holds for every trace of
`allDiagnosis`.  This holds for every solver that answers with a satisfying
assignment whenever there is one. -/
theorem allMinMCS_minimal {α : Type} (S : Solver) (hS : S.Sound) (P : Problem α) :
    (∃ R, allMinMCS S P = some R ∧
      ∀ C ∈ R, P.satRelaxing C = true ∧
        ∀ m ∈ C, P.satRelaxing (C.filter fun a => a != m) = false) ∧
    (∀ (traces : List (ProgramTrace α)), ∀ r ∈ allDiagnosis S P traces,
      ∃ t ∈ traces, ∃ R, r = some R ∧
        ∀ C ∈ R, (P.onTrace t).satRelaxing C = true ∧
          ∀ m ∈ C, (P.onTrace t).satRelaxing (C.filter fun a => a != m) = false) := by
  constructor
  · obtain ⟨R, hR, hrec, _⟩ := allMinMCS_spec S hS P
    exact ⟨R, hR, fun C hC => (hrec.1 C hC).2⟩
  · intro traces r hr
    simp only [allDiagnosis, List.mem_map] at hr
    obtain ⟨t, ht, rfl⟩ := hr
    obtain ⟨R, hR, hrec, _⟩ := allMinMCS_spec S hS (P.onTrace t)
    exact ⟨t, ht, R, hR, fun C hC => (hrec.1 C hC).2⟩

/-- C13 at the sample program: the reported subset `{1}` restores
satisfiability, and reinstating its member loses it. -/
theorem allMinMCS_minimal_witness :
    allMinMCS firstModel sampleProblem = some [[1], [0]] ∧
    sampleProblem.satRelaxing [1] = true ∧
    sampleProblem.satRelaxing ([1].filter fun a => a != 1) = false := by
  obtain ⟨R, hR, h⟩ := (allMinMCS_minimal firstModel firstModel_sound sampleProblem).1
  have hval : allMinMCS firstModel sampleProblem = some [[1], [0]] := by decide
  rw [hval, Option.some.injEq] at hR
  subst hR
  obtain ⟨h1, h2⟩ := h [1] (by simp)
  exact ⟨hval, h1, h2 1 (by simp)⟩

/-- A recorded set has no proper subset that is a correction subset. -/
theorem Recorded.isMinimalCorrection {α : Type} (P : Problem α)
    (R : List (List Nat)) (hrec : Recorded P R) (B : List Nat) (hB : B ∈ R) :
    isMinimalCorrection P B = true := by
  obtain ⟨hsub, hsat, hmin⟩ := hrec.1 B hB
  have hnd : B.Nodup := hsub.nodup P.AV_nodup
  simp only [FaultLocalization.isMinimalCorrection, Bool.and_eq_true, hsat, true_and,
    List.all_eq_true, Bool.or_eq_true, beq_iff_eq, Bool.not_eq_true']
  intro E hE
  rw [mem_subsets] at hE
  by_cases hEB : E = B
  · exact Or.inl hEB
  · right
    have hex : ∃ m, m ∈ B ∧ m ∉ E := by
      by_contra hno
      apply hEB
      apply sublist_ext B E B hnd hE (List.Sublist.refl _)
      intro x
      constructor
      · exact fun hx => hE.subset hx
      · intro hx
        by_contra hxE
        exact hno ⟨x, hx, hxE⟩
    obtain ⟨m, hm, hmE⟩ := hex
    cases hs : P.satRelaxing E
    · rfl
    · have hmono := P.satRelaxing_mono E (B.filter fun a => a != m)
        (fun x hx => by
          rw [List.mem_filter]
          refine ⟨hE.subset hx, ?_⟩
          have : x ≠ m := fun hxm => hmE (hxm ▸ hx)
          simpa using this) hs
      rw [hmin m hm] at hmono
      cases hmono

theorem nodup_bruteForce {α : Type} (P : Problem α) : (bruteForce P).Nodup :=
  (nodup_subsets P.AV P.AV_nodup).filter _

/-- When the solver reports UNSAT under the recorded blocking constraints, the
recorded sets are the minimal correction subsets found by brute force. -/
theorem mem_recorded_iff {α : Type} (S : Solver) (hS : S.Sound) (P : Problem α)
    (R : List (List Nat)) (hrec : Recorded P R) (hnone : solve S P R = none)
    (C : List Nat) : C ∈ R ↔ C ∈ bruteForce P := by
  constructor
  · intro hC
    simp only [bruteForce, List.mem_filter, mem_subsets]
    exact ⟨(hrec.1 C hC).1, Recorded.isMinimalCorrection P R hrec C hC⟩
  · intro hC
    simp only [bruteForce, List.mem_filter, mem_subsets] at hC
    obtain ⟨hsub, hmin⟩ := hC
    simp only [FaultLocalization.isMinimalCorrection, Bool.and_eq_true, List.all_eq_true,
      Bool.or_eq_true, beq_iff_eq, Bool.not_eq_true'] at hmin
    obtain ⟨hsat, hall⟩ := hmin
    have hb := solve_none S hS P R hnone C hsub hsat
    obtain ⟨B, hBR, hBC⟩ := (blocked_eq_true R C).mp hb
    obtain ⟨hBsub, hBsat, _⟩ := hrec.1 B hBR
    have hBC' : B.Sublist C := sublist_of_subset P.AV B C P.AV_nodup hBsub hsub hBC
    rcases hall B ((mem_subsets B C).mpr hBC') with h | h
    · rw [← h]
      exact hBR
    · rw [hBsat] at h
      cases h

/-- C14: the solve/minimize/block loop stops, with the solver reporting UNSAT
under the accumulated blocking constraints, and the sets it has then recorded
are exactly the minimal correction subsets computed by brute force over every
subset of the activation variables: none is missing, none is reported twice.
On a failing trace this is what `allMinMCS` returns.  This holds for every
solver that answers with a satisfying assignment whenever there is one. -/
theorem allMinMCS_complete {α : Type} (S : Solver) (hS : S.Sound) (P : Problem α) :
    ∃ R, enumerate S P (rounds P) [] = some R ∧ solve S P R = none ∧
      R.Nodup ∧ (∀ C, C ∈ R ↔ C ∈ bruteForce P) ∧ R.Perm (bruteForce P) ∧
      (P.satRelaxing [] = false → allMinMCS S P = some R) := by
  obtain ⟨R, hR, hrec, hnone⟩ := enumerate_rounds S hS P
  have hiff := mem_recorded_iff S hS P R hrec hnone
  refine ⟨R, hR, hnone, hrec.2, hiff, ?_, ?_⟩
  · exact (List.perm_ext_iff_of_nodup hrec.2 (nodup_bruteForce P)).mpr hiff
  · intro h0
    simp only [allMinMCS, h0, Bool.false_eq_true, if_false, hR]

/-- C14 at the sample program, a failing trace with the two minimal correction
subsets `{1}` and `{0}`. -/
theorem allMinMCS_complete_witness :
    ∃ R, allMinMCS firstModel sampleProblem = some R ∧
      R.Perm (bruteForce sampleProblem) ∧ bruteForce sampleProblem = [[1], [0]] := by
  obtain ⟨R, _, _, _, _, hperm, hall⟩ :=
    allMinMCS_complete firstModel firstModel_sound sampleProblem
  exact ⟨R, hall (by decide), hperm, by decide⟩

/-! ## Fault localization: the trace combiner -/

theorem mem_union (sets : List (List Nat)) (s : Nat) :
    s ∈ union sets ↔ ∃ t ∈ sets, s ∈ t := by
  simp [union, List.mem_dedup, List.mem_flatten]

theorem mem_intersection (sets : List (List Nat)) (s : Nat) :
    s ∈ intersection sets ↔ (∃ t ∈ sets, s ∈ t) ∧ ∀ t ∈ sets, s ∈ t := by
  cases sets with
  | nil => simp [intersection]
  | cons t ts =>
    simp only [intersection, List.mem_dedup, List.mem_filter, List.all_eq_true,
      List.mem_cons, forall_eq_or_imp, exists_eq_or_imp]
    constructor
    · rintro ⟨h1, h2⟩
      exact ⟨Or.inl h1, h1, fun u hu => by simpa using h2 u hu⟩
    · rintro ⟨_, h1, h2⟩
      exact ⟨h1, fun u hu => by simpa using h2 u hu⟩

/-- C16: for every list of per-trace diagnosis sets, Union reports the
statements that occur in some trace's set, Intersection reports exactly the
statements that occur in the sets and are in every trace's set, so the
Intersection result is a subset of the Union result; for `{s1,s2}` and
`{s2,s3}` Union is `{s1,s2,s3}` and Intersection is `{s2}`. -/
theorem union_intersection_laws (sets : List (List Nat)) :
    (∀ s, s ∈ union sets ↔ ∃ t ∈ sets, s ∈ t) ∧
    (∀ s, s ∈ intersection sets ↔ (∃ t ∈ sets, s ∈ t) ∧ ∀ t ∈ sets, s ∈ t) ∧
    (∀ s, s ∈ intersection sets → s ∈ union sets) ∧
    (union sets).Nodup ∧ (intersection sets).Nodup ∧
    union [[1, 2], [2, 3]] = [1, 2, 3] ∧ intersection [[1, 2], [2, 3]] = [2] := by
  refine ⟨mem_union sets, mem_intersection sets, ?_, ?_, ?_, by decide, by decide⟩
  · intro s hs
    exact (mem_union sets s).mpr ((mem_intersection sets s).mp hs).1
  · exact List.nodup_dedup _
  · cases sets with
    | nil => exact List.nodup_nil
    | cons t ts => exact List.nodup_dedup _

theorem rankedBefore_total (sets : List (List Nat)) (a b : Nat) :
    rankedBefore sets a b ∨ rankedBefore sets b a := by
  unfold rankedBefore
  omega

theorem rankedBefore_trans (sets : List (List Nat)) (a b c : Nat)
    (h1 : rankedBefore sets a b) (h2 : rankedBefore sets b c) :
    rankedBefore sets a c := by
  unfold rankedBefore at *
  omega

/-- C17: for every list of per-trace diagnosis sets, Ranking scores a
statement by the number of traces' sets it occurs in and returns the
statements of the sets, each once, sorted by descending score, statements of
equal score in statement order; for `{s1,s2}` and `{s2,s3}` it returns
`[s2(2), s1(1), s3(1)]`. -/
theorem ranking_laws (sets : List (List Nat)) :
    (∀ s, score sets s = (sets.filter fun t => decide (s ∈ t)).length) ∧
    (∀ s, s ∈ ranking sets ↔ ∃ t ∈ sets, s ∈ t) ∧
    (ranking sets).Nodup ∧
    (ranking sets).Pairwise (fun a b =>
      score sets b < score sets a ∨ (score sets a = score sets b ∧ a < b)) ∧
    rankingWithScores [[1, 2], [2, 3]] = [(2, 2), (1, 1), (3, 1)] := by
  have hperm : (ranking sets).Perm (union sets) := List.perm_insertionSort _ _
  have hnd : (ranking sets).Nodup := hperm.nodup_iff.mpr (List.nodup_dedup _)
  refine ⟨?_, ?_, hnd, ?_, by decide⟩
  · intro s
    simp [score, List.countP_eq_length_filter]
  · intro s
    rw [hperm.mem_iff]
    exact mem_union sets s
  · haveI : IsTotal Nat (rankedBefore sets) := ⟨rankedBefore_total sets⟩
    haveI : IsTrans Nat (rankedBefore sets) := ⟨rankedBefore_trans sets⟩
    have hs : (ranking sets).Pairwise (rankedBefore sets) :=
      List.sorted_insertionSort (rankedBefore sets) (union sets)
    refine (hs.and hnd).imp ?_
    intro a b hab
    obtain ⟨hr, hne⟩ := hab
    unfold rankedBefore at hr
    omega

end FaultLocalization

end Sniper
